import Mathlib

/-!
Verification of the systrack diagnostic tool (Python sources under `src/`)
against its natural-language specification.

Modelling conventions:
* Python floats are modelled as exact rationals (`ℚ`); `round(x, 2)` and the
  `:.0f` format specifier use round-half-to-even, matching CPython on the
  dyadic values produced by the byte-count conversions in scope.
* `psutil` / `platform` / `subprocess` readings are external collaborators:
  they appear as explicit input structures (`HostReadings`, `PingOutcome`,
  `SpeedtestOutcome`).
* The filesystem is an explicit state value; `datetime.now()` is an explicit
  `Clock` argument.
-/

/-- Little-endian decimal digits, fuel-bounded (structural recursion so that
concrete values evaluate by kernel reduction). -/
def natDigitsAux : Nat → Nat → List Nat
  | 0, _ => []
  | _ + 1, 0 => []
  | fuel + 1, n + 1 => ((n + 1) % 10) :: natDigitsAux fuel ((n + 1) / 10)

/-- Little-endian decimal digits of a natural number (empty for 0). -/
def natDigitsLE (n : Nat) : List Nat := natDigitsAux n n

/-- The character for a decimal digit. -/
def digitChar (d : Nat) : Char := Char.ofNat (48 + d)

/-- Big-endian decimal digit characters of a natural number ("0" for 0). -/
def natDigits (n : Nat) : List Char :=
  if n = 0 then ['0'] else ((natDigitsLE n).reverse).map digitChar

/-- Value of a big-endian string of decimal digit characters. -/
def digitsToNat (l : List Char) : Nat :=
  l.foldl (fun a c => 10 * a + (c.toNat - 48)) 0

/-- `strftime` zero-padding to two digits. -/
def pad2 (n : Nat) : String :=
  String.mk (if n < 10 then '0' :: natDigits n else natDigits n)

/-- `strftime` zero-padding of the year to four digits. -/
def pad4 (n : Nat) : String :=
  String.mk (List.replicate (4 - (natDigits n).length) '0' ++ natDigits n)

/-- Round a rational to the nearest integer, ties to even (CPython rounding of
exactly representable values). -/
def roundHalfEven (q : ℚ) : ℤ :=
  let f := ⌊q⌋
  let r := q - f
  if r < 1 / 2 then f
  else if 1 / 2 < r then f + 1
  else if f % 2 = 0 then f else f + 1

/-- Python `round(x, 2)` on an exactly represented value. -/
def round2 (q : ℚ) : ℚ := (roundHalfEven (q * 100) : ℚ) / 100

/-- Decimal rendering of an integer. -/
def intStr (n : ℤ) : String :=
  if n < 0 then "-" ++ String.mk (natDigits n.natAbs) else String.mk (natDigits n.natAbs)

/-- Python float formatting with `:.0f` (round half to even; keeps the sign of
a negative value rounding to zero). -/
def format0f (q : ℚ) : String :=
  let n := roundHalfEven q
  if q < 0 ∧ n = 0 then "-0" else intStr n

/-- `strip pat s` removes the prefix `pat` from `s`, if present. -/
def strip : List Char → List Char → Option (List Char)
  | [], s => some s
  | p :: ps, c :: cs => if c = p then strip ps cs else none
  | _ :: _, [] => none

/-- Python substring test `needle in hay` on character lists. -/
def containsSub : List Char → List Char → Bool
  | [], needle => needle.isEmpty
  | c :: cs, needle => (strip needle (c :: cs)).isSome || containsSub cs needle

/-- Python substring test `pat in s`. -/
def strContains (s pat : String) : Bool := containsSub s.toList pat.toList

/-- Number of lines of a string: one more than the number of newline
characters (the length of Python `s.split('\n')`). -/
def lineCount (s : String) : Nat := s.toList.count '\n' + 1

/-! ## src/system_info.py -/

/-- The `'cpu'` sub-dictionary built by `get_system_info`. -/
structure CpuInfo where
  usage_percent : ℚ
  core_count : Nat
deriving DecidableEq

/-- The `'memory'` sub-dictionary built by `get_system_info`. -/
structure MemoryInfo where
  usage_percent : ℚ
  total_gb : ℚ
  used_gb : ℚ
  free_gb : ℚ
  available_gb : ℚ
  cached_gb : ℚ
deriving DecidableEq

/-- The `'disk'` sub-dictionary built by `get_system_info`. -/
structure DiskInfo where
  usage_percent : ℚ
  total_gb : ℚ
  used_gb : ℚ
  free_gb : ℚ
deriving DecidableEq

/-- The `'os'` sub-dictionary built by `get_system_info`. -/
structure OsInfo where
  name : String
  version : String
  release : String
  platform : String
deriving DecidableEq

/-- The dictionary returned by `get_system_info`. -/
structure SystemInfo where
  cpu : CpuInfo
  memory : MemoryInfo
  disk : DiskInfo
  os : OsInfo
deriving DecidableEq

/-- Ambient host state as read by `psutil` and `platform` (byte counts are
naturals, percentages come from the OS query). -/
structure HostReadings where
  cpu_percent : ℚ
  cpu_count : Nat
  mem_percent : ℚ
  mem_total : Nat
  mem_used : Nat
  mem_free : Nat
  mem_available : Nat
  disk_percent : ℚ
  disk_total : Nat
  disk_used : Nat
  disk_free : Nat
  os_name : String
  os_version : String
  os_release : String
  os_platform : String
deriving DecidableEq

/-- `get_system_info` (src/system_info.py): converts byte counts to GiB,
rounds to 2 decimals, and derives `cached_gb` from the unrounded values. -/
def get_system_info (h : HostReadings) : SystemInfo :=
  let memory_total_gb : ℚ := (h.mem_total : ℚ) / 1024 ^ 3
  let memory_used_gb : ℚ := (h.mem_used : ℚ) / 1024 ^ 3
  let memory_free_gb : ℚ := (h.mem_free : ℚ) / 1024 ^ 3
  let memory_available_gb : ℚ := (h.mem_available : ℚ) / 1024 ^ 3
  let memory_cached_gb : ℚ := memory_available_gb - memory_free_gb
  let disk_total_gb : ℚ := (h.disk_total : ℚ) / 1024 ^ 3
  let disk_used_gb : ℚ := (h.disk_used : ℚ) / 1024 ^ 3
  let disk_free_gb : ℚ := (h.disk_free : ℚ) / 1024 ^ 3
  { cpu := { usage_percent := h.cpu_percent, core_count := h.cpu_count }
    memory := { usage_percent := h.mem_percent
                total_gb := round2 memory_total_gb
                used_gb := round2 memory_used_gb
                free_gb := round2 memory_free_gb
                available_gb := round2 memory_available_gb
                cached_gb := round2 memory_cached_gb }
    disk := { usage_percent := h.disk_percent
              total_gb := round2 disk_total_gb
              used_gb := round2 disk_used_gb
              free_gb := round2 disk_free_gb }
    os := { name := h.os_name, version := h.os_version
            release := h.os_release, platform := h.os_platform } }

/-! ## src/network_check.py — data model of `ping_host` -/

/-- The dictionary returned by `ping_host` (also consumed by
`generate_summary_line` as its `network_info` argument). -/
structure PingResult where
  online : Bool
  host : String
  latency_ms : Option ℚ
  message : String
deriving DecidableEq

/-- Network-status fragment of `generate_summary_line`: Python's
`network_info.get('latency_ms', 0)` followed by a truthiness test, so both a
missing latency and a latency of exactly 0 fall to the bare `"Online"`. -/
def networkStatus (net : PingResult) : String :=
  if net.online then
    match net.latency_ms with
    | some p => if p = 0 then "Online" else "Online (" ++ format0f p ++ "ms)"
    | none => "Online"
  else "Offline"

/-- `generate_summary_line` (src/system_info.py). -/
def generate_summary_line (info : SystemInfo) (net : PingResult) : String :=
  let cpu_status := if info.cpu.usage_percent < 80 then "Normal" else "High"
  let mem_status := if info.memory.usage_percent < 80 then "Normal" else "High"
  let disk_status := if info.disk.usage_percent < 80 then "Normal" else "High"
  String.intercalate " | "
    ["CPU: " ++ cpu_status, "Memory: " ++ mem_status,
     "Disk: " ++ disk_status, "Network: " ++ networkStatus net]

/-! ## src/network_check.py — `ping_host` -/

/-- Outcome of the `subprocess.run` call inside `ping_host`: a completed
process (exit code and stdout), a timeout, a missing `ping` executable, or
any other execution error. -/
inductive PingOutcome where
  | completed (exitCode : Int) (stdout : String)
  | timeoutExpired
  | fileNotFound
  | otherError (detail : String)
deriving DecidableEq

/-- One attempt of the regex `time[<=](\d+\.?\d*)` anchored at the head of the
list: `time`, then `=` or `<`, then digits, an optional dot, and more digits. -/
def timeNumAt (l : List Char) : Option ℚ :=
  match strip ['t', 'i', 'm', 'e'] l with
  | none => none
  | some r =>
    match r with
    | [] => none
    | c :: r2 =>
      if c = '=' || c = '<' then
        let ds := r2.takeWhile Char.isDigit
        let r3 := r2.dropWhile Char.isDigit
        if ds.isEmpty then none
        else
          match r3 with
          | '.' :: r4 =>
            let fs := r4.takeWhile Char.isDigit
            some ((digitsToNat ds : ℚ) + (digitsToNat fs : ℚ) / 10 ^ fs.length)
          | _ => some ((digitsToNat ds : ℚ))
      else none

/-- `re.search(r'time[<=](\d+\.?\d*)', line)`: leftmost match wins. -/
def findTimeNum : List Char → Option ℚ
  | [] => none
  | c :: cs =>
    match timeNumAt (c :: cs) with
    | some q => some q
    | none => findTimeNum cs

/-- The per-line latency extraction loop of `ping_host`: first line containing
`time=` or `time<` whose regex search succeeds. -/
def findFirstLatency : List String → Option ℚ
  | [] => none
  | l :: t =>
    if strContains l "time=" || strContains l "time<" then
      match findTimeNum l.toList with
      | some q => some q
      | none => findFirstLatency t
    else findFirstLatency t

/-- Latency parsing of `ping_host` on the lower-cased stdout of `ping`. -/
def parseLatency (out : String) : Option ℚ :=
  let o := out.toLower
  if strContains o "time=" || strContains o "time<" then
    findFirstLatency (o.splitOn "\n")
  else none

/-- `ping_host` (src/network_check.py): returns a result dictionary, except
that a missing `ping` tool is re-raised as a `RuntimeError`. The truthiness
test `if latency_ms` sends both `None` and `0.0` to the `Success` message. -/
def ping_host (host : String) (o : PingOutcome) : Except String PingResult :=
  match o with
  | .completed code stdout =>
    if code = 0 then
      let latency := parseLatency stdout
      .ok { online := true, host := host, latency_ms := latency
            message :=
              match latency with
              | some l =>
                if l = 0 then "Online (Ping " ++ host ++ ": Success)"
                else "Online (Ping " ++ host ++ ": " ++ format0f l ++ "ms)"
              | none => "Online (Ping " ++ host ++ ": Success)" }
    else
      .ok { online := false, host := host, latency_ms := none
            message := "Offline (Unable to reach " ++ host ++ ")" }
  | .timeoutExpired =>
    .ok { online := false, host := host, latency_ms := none
          message := "Offline (Timeout connecting to " ++ host ++ ")" }
  | .fileNotFound =>
    .error "ping command not found. Network diagnostics unavailable."
  | .otherError detail =>
    .ok { online := false, host := host, latency_ms := none
          message := "Offline (Error: " ++ detail ++ ")" }

/-! ## src/network_check.py — `run_ookla_speedtest` -/

/-- Outcome of the speedtest client interaction: the import may fail, the
negotiation/transfer may raise with some message, or it succeeds with the
externally measured values (speeds in bits per second, as returned by the
client library) and the selected server's details. -/
inductive SpeedtestOutcome where
  | importError
  | execError (msg : String)
  | success (download_bps upload_bps ping : ℚ)
      (serverName sponsor country : String) (distance : ℚ)
deriving DecidableEq

/-- Result dictionary of `run_ookla_speedtest`. -/
inductive SpeedtestResult where
  | ok (download_mbps upload_mbps ping_ms : ℚ)
      (serverName serverCity serverSponsor serverCountry : String)
      (distance : ℚ)
  | fail (error : String)
deriving DecidableEq

/-- `True` iff the result has `success = False`. -/
def SpeedtestResult.failed : SpeedtestResult → Bool
  | .fail _ => true
  | .ok _ _ _ _ _ _ _ _ => false

/-- Error text of a failed result (`''` on success). -/
def SpeedtestResult.errorText : SpeedtestResult → String
  | .fail e => e
  | .ok _ _ _ _ _ _ _ _ => ""

/-- The `city` derivation in `run_ookla_speedtest`: first comma-separated
component of the server name when it contains a comma, else the name. -/
def cityOf (name : String) : String :=
  if strContains name "," then ((name.splitOn ",").headD "") else name

/-- `run_ookla_speedtest` (src/network_check.py): classifies failures by
substring tests on the exception text, in source order. -/
def run_ookla_speedtest (o : SpeedtestOutcome) : SpeedtestResult :=
  match o with
  | .importError =>
    .fail "speedtest-cli not installed. Run: pip install speedtest-cli"
  | .execError msg =>
    if strContains msg "403" || strContains msg "Forbidden" then
      .fail "HTTP 403 Forbidden - Ookla servers blocked the request. This may be temporary, please try again later."
    else if strContains msg "HTTPSConnectionPool" || strContains msg "Connection" then
      .fail "Connection error - Unable to reach Ookla servers. Check your internet connection."
    else
      .fail ("Speedtest failed: " ++ msg)
  | .success dl up ping name sponsor country dist =>
    .ok (round2 (dl / 1000000)) (round2 (up / 1000000)) (round2 ping)
      name (cityOf name) sponsor country (round2 dist)

/-- Python `str()` of a float that is an exact multiple of 1/100 (the shape of
every `round(x, 2)` result placed in the speedtest dictionary): shortest
decimal form, with at least one digit after the point. -/
def floatStr2 (q : ℚ) : String :=
  let z := ⌊q * 100⌋
  let sign := if z < 0 then "-" else ""
  let n := z.natAbs
  let ip := n / 100
  let fr := n % 100
  if fr = 0 then sign ++ String.mk (natDigits ip) ++ ".0"
  else if fr % 10 = 0 then
    sign ++ String.mk (natDigits ip) ++ "." ++ String.mk (natDigits (fr / 10))
  else sign ++ String.mk (natDigits ip) ++ "." ++ pad2 fr

/-- `format_speedtest_results` (src/network_check.py), failure branch and the
success block (joined with newlines, as in the source). -/
def format_speedtest_results (r : SpeedtestResult) : String :=
  match r with
  | .fail e => "Speedtest Error: " ++ e
  | .ok dl up ping name city sponsor country dist =>
    String.intercalate "\n"
      ["", "=== Ookla Speedtest Results ===", "",
       "⚠️  DISCLAIMER: Results are estimates based on the test server selected.",
       "   Server location/provider may not reflect your actual location/ISP.",
       "",
       "Test Server: " ++ name,
       "Server Provider: " ++ sponsor,
       "Server Location: " ++ city ++ ", " ++ country,
       "Distance to Server: " ++ floatStr2 dist ++ " km",
       "",
       "Network Performance:",
       "  Ping: " ++ floatStr2 ping ++ " ms",
       "  Download Speed: " ++ floatStr2 dl ++ " Mbps",
       "  Upload Speed: " ++ floatStr2 up ++ " Mbps"]

/-! ## src/report_writer.py — clock, filesystem model, text reports -/

/-- A `datetime.now()` reading. -/
structure Clock where
  year : Nat
  month : Nat
  day : Nat
  hour : Nat
  minute : Nat
  second : Nat
  micro : Nat
deriving DecidableEq

/-- `generate_timestamp` (src/report_writer.py): `%Y-%m-%d_%H-%M`. -/
def generate_timestamp (c : Clock) : String :=
  pad4 c.year ++ "-" ++ pad2 c.month ++ "-" ++ pad2 c.day ++ "_" ++
    pad2 c.hour ++ "-" ++ pad2 c.minute

/-- `generate_date_header` (src/report_writer.py): `%Y-%m-%d`. -/
def generate_date_header (c : Clock) : String :=
  pad4 c.year ++ "-" ++ pad2 c.month ++ "-" ++ pad2 c.day

/-- `datetime.isoformat()`: seconds always present, microseconds only when
nonzero. -/
def isoformat (c : Clock) : String :=
  pad4 c.year ++ "-" ++ pad2 c.month ++ "-" ++ pad2 c.day ++ "T" ++
    pad2 c.hour ++ ":" ++ pad2 c.minute ++ ":" ++ pad2 c.second ++
    (if c.micro = 0 then "" else "." ++ String.mk
      (List.replicate (6 - (natDigits c.micro).length) '0' ++ natDigits c.micro))

/-- Association-list update with Python `dict` semantics: overwrite the value
in place when the key exists, else append the new binding at the end. -/
def alistSet {α : Type} : List (String × α) → String → α → List (String × α)
  | [], k, v => [(k, v)]
  | (k0, v0) :: tl, k, v =>
    if k0 = k then (k0, v) :: tl else (k0, v0) :: alistSet tl k v

/-- Association-list lookup (first binding wins, like a Python `dict`). -/
def alistGet {α : Type} : List (String × α) → String → Option α
  | [], _ => none
  | (k0, v0) :: tl, k => if k0 = k then some v0 else alistGet tl k

/-- Filesystem state: the set of existing directories and a map from file
paths to file contents. Paths are joined with `/`, as `pathlib` renders them
on POSIX hosts. -/
structure FileSystem where
  dirs : List String
  files : List (String × String)
deriving DecidableEq

/-- The chain of ancestor paths created by `mkdir(parents=True)`:
`"a/b/c" ↦ ["a", "a/b", "a/b/c"]`. -/
def prefixAcc : String → List String → List String
  | acc, [] => [acc]
  | acc, q :: t => acc :: prefixAcc (acc ++ "/" ++ q) t

/-- All path components created for a directory, the directory included. -/
def pathParents (p : String) : List String :=
  match p.splitOn "/" with
  | [] => [p]
  | q :: t => prefixAcc q t

/-- `ensure_reports_directory` (src/report_writer.py):
`Path(reports_dir).mkdir(parents=True, exist_ok=True)`. -/
def ensure_reports_directory (reports_dir : String) (fs : FileSystem) : FileSystem :=
  { fs with dirs := pathParents reports_dir ++ fs.dirs }

/-- `open(filepath, 'w').write(content)`: create or overwrite. -/
def fsWrite (fs : FileSystem) (path content : String) : FileSystem :=
  { fs with files := alistSet fs.files path content }

/-- `save_text_report` (src/report_writer.py): ensure the directory, build
`<dir>/<prefix>_<timestamp>.txt`, write the content, return the path. -/
def save_text_report (content : String) (reports_dir pfx : String)
    (c : Clock) (fs : FileSystem) : FileSystem × String :=
  let fs1 := ensure_reports_directory reports_dir fs
  let filename := pfx ++ "_" ++ generate_timestamp c ++ ".txt"
  let filepath := reports_dir ++ "/" ++ filename
  (fsWrite fs1 filepath content, filepath)

/-! ## JSON: the `json.dump` / `json.load` stdlib collaborator pair.

`Json.num m e` stands for the decimal number `m / 10^e` printed with `e`
digits after the point (`e = 0` prints an integer literal); this covers every
number the program serializes. The serializer reproduces
`json.dump(data, f, indent=2, ensure_ascii=False)`: two-space indentation,
`", "`/`": "` separators with newlines, non-ASCII characters kept raw and
control characters escaped. The parser accepts the serialized fragment. -/

inductive Json where
  | null : Json
  | bool : Bool → Json
  | num : Int → Nat → Json
  | str : String → Json
  | arr : List Json → Json
  | obj : List (String × Json) → Json

/-- Lowercase hex digit, as emitted by `json.dump` in `\u00XX` escapes. -/
def hexDigitChar (n : Nat) : Char :=
  if n < 10 then Char.ofNat (48 + n) else Char.ofNat (87 + n)

/-- Escaping of one character by `json.dump` with `ensure_ascii=False`. -/
def escapeChar (c : Char) : List Char :=
  if c = '"' then ['\\', '"']
  else if c = '\\' then ['\\', '\\']
  else if c = '\n' then ['\\', 'n']
  else if c = '\t' then ['\\', 't']
  else if c = '\r' then ['\\', 'r']
  else if c.toNat = 8 then ['\\', 'b']
  else if c.toNat = 12 then ['\\', 'f']
  else if c.toNat < 32 then
    ['\\', 'u', '0', '0', hexDigitChar (c.toNat / 16), hexDigitChar (c.toNat % 16)]
  else [c]

/-- Escaping of a character sequence. -/
def escChars : List Char → List Char
  | [] => []
  | c :: cs => escapeChar c ++ escChars cs

/-- A JSON string literal. -/
def dumpStr (s : String) : List Char := '"' :: (escChars s.toList ++ ['"'])

/-- Left-pad a digit sequence with zeros to at least `e + 1` digits. -/
def padDigits (e : Nat) (ds : List Char) : List Char :=
  List.replicate ((e + 1) - ds.length) '0' ++ ds

/-- Decimal rendering of `Json.num m e`. -/
def dumpNum (m : Int) (e : Nat) : List Char :=
  let ds := natDigits m.natAbs
  let sign : List Char := if m < 0 then ['-'] else []
  if e = 0 then sign ++ ds
  else
    let pd := padDigits e ds
    sign ++ (pd.take (pd.length - e) ++ '.' :: pd.drop (pd.length - e))

/-- Indentation characters. -/
def spacesN (n : Nat) : List Char := List.replicate n ' '

mutual
/-- `json.dump(_, indent=2, ensure_ascii=False)` at nesting depth `d`. -/
def dumpV : Nat → Json → List Char
  | _, .null => ['n', 'u', 'l', 'l']
  | _, .bool true => ['t', 'r', 'u', 'e']
  | _, .bool false => ['f', 'a', 'l', 's', 'e']
  | _, .num m e => dumpNum m e
  | _, .str s => dumpStr s
  | _, .arr [] => ['[', ']']
  | d, .arr (x :: xs) =>
    '[' :: '\n' :: (spacesN (2 * (d + 1)) ++ dumpV (d + 1) x ++
      dumpItemsRest (d + 1) xs ++ '\n' :: (spacesN (2 * d) ++ [']']))
  | _, .obj [] => ['\x7b', '\x7d']
  | d, .obj ((k, v) :: kvs) =>
    '\x7b' :: '\n' :: (spacesN (2 * (d + 1)) ++ dumpStr k ++ ':' :: ' ' ::
      (dumpV (d + 1) v ++ dumpMembersRest (d + 1) kvs ++
        '\n' :: (spacesN (2 * d) ++ ['\x7d'])))
termination_by _ j => sizeOf j
/-- Second and later array items, each preceded by `",\n" + indent`. -/
def dumpItemsRest : Nat → List Json → List Char
  | _, [] => []
  | d, y :: ys => ',' :: '\n' :: (spacesN (2 * d) ++ dumpV d y ++ dumpItemsRest d ys)
termination_by _ l => sizeOf l
/-- Second and later object members. -/
def dumpMembersRest : Nat → List (String × Json) → List Char
  | _, [] => []
  | d, (k, v) :: kvs =>
    ',' :: '\n' :: (spacesN (2 * d) ++ dumpStr k ++ ':' :: ' ' ::
      (dumpV d v ++ dumpMembersRest d kvs))
termination_by _ l => sizeOf l
end

mutual
/-- Structural node count of a JSON value (drives the parser fuel bound). -/
def jnodes : Json → Nat
  | .null => 1
  | .bool _ => 1
  | .num _ _ => 1
  | .str _ => 1
  | .arr xs => inodes xs + 1
  | .obj kvs => knodes kvs + 1
termination_by j => sizeOf j
/-- Node count of array items. -/
def inodes : List Json → Nat
  | [] => 0
  | j :: tl => jnodes j + inodes tl
termination_by l => sizeOf l
/-- Node count of object members. -/
def knodes : List (String × Json) → Nat
  | [] => 0
  | (_, v) :: tl => jnodes v + knodes tl
termination_by l => sizeOf l
end

/-- Whitespace characters skipped by the JSON scanner. -/
def isWsChar (c : Char) : Bool := c = ' ' || c = '\n' || c = '\t' || c = '\r'

/-- Drop leading whitespace. -/
def skipWs : List Char → List Char
  | [] => []
  | c :: cs => if isWsChar c then skipWs cs else c :: cs

/-- Value of a lowercase hex digit. -/
def hexVal (c : Char) : Option Nat :=
  if '0' ≤ c ∧ c ≤ '9' then some (c.toNat - 48)
  else if 'a' ≤ c ∧ c ≤ 'f' then some (c.toNat - 87)
  else none

/-- Single-character escapes accepted after a backslash. -/
def unescChar (c : Char) : Option Char :=
  if c = '"' then some '"'
  else if c = '\\' then some '\\'
  else if c = '/' then some '/'
  else if c = 'n' then some '\n'
  else if c = 't' then some '\t'
  else if c = 'r' then some '\r'
  else if c = 'b' then some (Char.ofNat 8)
  else if c = 'f' then some (Char.ofNat 12)
  else none

/-- Parse the body of a string literal (after the opening quote), returning
the decoded characters and the input after the closing quote. -/
def parseStrChars : List Char → Option (List Char × List Char)
  | [] => none
  | c :: cs =>
    if c = '"' then some ([], cs)
    else if c = '\\' then
      match cs with
      | [] => none
      | e :: cs2 =>
        if e = 'u' then
          match cs2 with
          | [] => none
          | [_] => none
          | [_, _] => none
          | [_, _, _] => none
          | h1 :: h2 :: h3 :: h4 :: cs3 =>
            match hexVal h1 with
            | none => none
            | some a =>
              match hexVal h2 with
              | none => none
              | some b =>
                match hexVal h3 with
                | none => none
                | some x =>
                  match hexVal h4 with
                  | none => none
                  | some y =>
                    (parseStrChars cs3).map fun p =>
                      (Char.ofNat (((a * 16 + b) * 16 + x) * 16 + y) :: p.1, p.2)
        else
          match unescChar e with
          | some u => (parseStrChars cs2).map fun p => (u :: p.1, p.2)
          | none => none
    else (parseStrChars cs).map fun p => (c :: p.1, p.2)
termination_by s => s.length
decreasing_by all_goals (simp; try omega)

/-- Apply an optional minus sign. -/
def intOfSign (neg : Bool) (n : Nat) : Int := if neg then -(n : Int) else (n : Int)

/-- Parse a JSON number (integer part, optional fraction). -/
def parseNum (s : List Char) : Option (Json × List Char) :=
  let negs := strip ['-'] s
  let neg := negs.isSome
  let s1 := negs.getD s
  let ds := s1.takeWhile Char.isDigit
  let r1 := s1.dropWhile Char.isDigit
  if ds.isEmpty then none
  else
    match strip ['.'] r1 with
    | some r2 =>
      let fs := r2.takeWhile Char.isDigit
      let r3 := r2.dropWhile Char.isDigit
      if fs.isEmpty then none
      else some (.num (intOfSign neg (digitsToNat (ds ++ fs))) fs.length, r3)
    | none => some (.num (intOfSign neg (digitsToNat ds)) 0, r1)

mutual
/-- Parse one JSON value (fuel-bounded recursive descent). -/
def parseV : Nat → List Char → Option (Json × List Char)
  | 0, _ => none
  | fuel + 1, s0 =>
    let s := skipWs s0
    match strip ['n', 'u', 'l', 'l'] s with
    | some r => some (.null, r)
    | none =>
    match strip ['t', 'r', 'u', 'e'] s with
    | some r => some (.bool true, r)
    | none =>
    match strip ['f', 'a', 'l', 's', 'e'] s with
    | some r => some (.bool false, r)
    | none =>
    match strip ['"'] s with
    | some r => (parseStrChars r).map fun p => (.str (String.mk p.1), p.2)
    | none =>
    match strip ['['] s with
    | some r =>
      (match strip [']'] (skipWs r) with
       | some r2 => some (.arr [], r2)
       | none => (parseItems fuel (skipWs r)).map fun p => (.arr p.1, p.2))
    | none =>
    match strip ['\x7b'] s with
    | some r =>
      (match strip ['\x7d'] (skipWs r) with
       | some r2 => some (.obj [], r2)
       | none => (parseMembers fuel (skipWs r)).map fun p => (.obj p.1, p.2))
    | none => parseNum s
termination_by f _ => (f, 0)
/-- Parse the items of a nonempty array, consuming the closing bracket. -/
def parseItems : Nat → List Char → Option (List Json × List Char)
  | 0, _ => none
  | fuel + 1, s =>
    match parseV (fuel + 1) s with
    | none => none
    | some (j, r) =>
      let r1 := skipWs r
      match strip [','] r1 with
      | some r2 =>
        (match parseItems fuel r2 with
         | some (js, r3) => some (j :: js, r3)
         | none => none)
      | none =>
        match strip [']'] r1 with
        | some r2 => some ([j], r2)
        | none => none
termination_by f _ => (f, 1)
/-- Parse the members of a nonempty object, consuming the closing brace. -/
def parseMembers : Nat → List Char → Option (List (String × Json) × List Char)
  | 0, _ => none
  | fuel + 1, s =>
    match strip ['"'] (skipWs s) with
    | none => none
    | some r =>
      match parseStrChars r with
      | none => none
      | some (k, r1) =>
        match strip [':'] (skipWs r1) with
        | none => none
        | some r2 =>
          match parseV (fuel + 1) r2 with
          | none => none
          | some (v, r3) =>
            let r4 := skipWs r3
            match strip [','] r4 with
            | some r5 =>
              (match parseMembers fuel r5 with
               | some (kvs, r6) => some ((String.mk k, v) :: kvs, r6)
               | none => none)
            | none =>
              match strip ['\x7d'] r4 with
              | some r5 => some ([(String.mk k, v)], r5)
              | none => none
termination_by f _ => (f, 1)
end

/-- `json.dump(data, f, indent=2, ensure_ascii=False)` as a string. -/
def json_dumps (j : Json) : String := String.mk (dumpV 0 j)

/-- `json.load`: parse one value, allow trailing whitespace only. -/
def json_loads (s : String) : Option Json :=
  match parseV (s.toList.length + 1) s.toList with
  | some (j, rest) => if (skipWs rest).isEmpty then some j else none
  | none => none

/-- `save_json_report` (src/report_writer.py): ensure the directory, build
`<dir>/<prefix>_<timestamp>.json`, inject the ISO timestamp into `data`
(mutating the caller's dictionary), serialize, return the path. The returned
triple is (new filesystem, returned path, state of `data` after the call). -/
def save_json_report (data : List (String × Json)) (reports_dir pfx : String)
    (c : Clock) (fs : FileSystem) : FileSystem × String × List (String × Json) :=
  let fs1 := ensure_reports_directory reports_dir fs
  let filename := pfx ++ "_" ++ generate_timestamp c ++ ".json"
  let filepath := reports_dir ++ "/" ++ filename
  let data1 := alistSet data "timestamp" (Json.str (isoformat c))
  (fsWrite fs1 filepath (json_dumps (.obj data1)), filepath, data1)

/-! Predicates used by the round-trip statements. -/

/-- The rest of the input after a serialized number must not extend the
number token. -/
def numSafe : List Char → Prop
  | [] => True
  | c :: _ => c.isDigit = false ∧ c ≠ '.'

/-- Every character is JSON whitespace. -/
def allWs (l : List Char) : Prop := ∀ c ∈ l, isWsChar c = true

/-! Concrete sample values used by boundary checks, counterexamples and
witnesses. -/

/-- A system snapshot whose three usage percentages all equal `q`. -/
def mkInfo (q : ℚ) : SystemInfo :=
  { cpu := { usage_percent := q, core_count := 8 }
    memory := { usage_percent := q, total_gb := 16, used_gb := 8, free_gb := 4,
                available_gb := 8, cached_gb := 4 }
    disk := { usage_percent := q, total_gb := 100, used_gb := 50, free_gb := 50 }
    os := { name := "Linux", version := "v", release := "r", platform := "p" } }

/-- An offline probe result. -/
def offlineNet : PingResult :=
  { online := false, host := "google.com", latency_ms := none
    message := "Offline (Unable to reach google.com)" }

/-- An online probe result with a measured latency of exactly 0 ms. -/
def zeroLatNet : PingResult :=
  { online := true, host := "google.com", latency_ms := some 0
    message := "Online (Ping google.com: Success)" }

/-- A ping stdout with a 43.2 ms round-trip token. -/
def out43 : String := "64 bytes from 142.250.64.110: icmp_seq=1 ttl=115 time=43.2 ms"

/-- A ping stdout with a 0 ms round-trip token. -/
def out0 : String := "64 bytes from 8.8.8.8: icmp_seq=1 ttl=117 time=0 ms"

/-- Host readings whose memory numbers expose the `cached_gb` rounding gap:
available = 1080179033 B (≈1.00600 GiB, rounds to 1.01) and
free = 3221225 B (≈0.00300 GiB, rounds to 0.00), while their difference
rounds to 1.00. -/
def c3Host : HostReadings :=
  { cpu_percent := 10, cpu_count := 8, mem_percent := 50, mem_total := 2147483648,
    mem_used := 1073741824, mem_free := 3221225, mem_available := 1080179033,
    disk_percent := 50, disk_total := 214748364800, disk_used := 107374182400,
    disk_free := 107374182400, os_name := "Linux", os_version := "v",
    os_release := "r", os_platform := "p" }

/-! ## Rounding lemmas (for the `cached_gb` analysis) -/

theorem abs_rhe_sub_le (q : ℚ) : |(roundHalfEven q : ℚ) - q| ≤ 1 / 2 := by
  have h0 : ((⌊q⌋ : ℤ) : ℚ) ≤ q := Int.floor_le q
  have h1 : q < ⌊q⌋ + 1 := Int.lt_floor_add_one q
  simp only [roundHalfEven]
  split_ifs <;> push_cast <;> rw [abs_le] <;> constructor <;> linarith

theorem abs_round2_sub_le (q : ℚ) : |round2 q - q| ≤ 1 / 200 := by
  have h := abs_rhe_sub_le (q * 100)
  have h2 : round2 q - q = ((roundHalfEven (q * 100) : ℚ) - q * 100) / 100 := by
    simp only [round2]; ring
  rw [h2, abs_div]
  rw [abs_of_pos (by norm_num : (0:ℚ) < 100)]
  linarith

theorem round2_sub_round2_bound (a f : ℚ) :
    |round2 (a - f) - (round2 a - round2 f)| ≤ 1 / 100 := by
  set z : ℤ := roundHalfEven ((a - f) * 100) - roundHalfEven (a * 100) +
    roundHalfEven (f * 100) with hzdef
  have hz : round2 (a - f) - (round2 a - round2 f) = (z : ℚ) / 100 := by
    simp only [round2, hzdef]; push_cast; ring
  have h1 := abs_round2_sub_le (a - f)
  have h2 := abs_round2_sub_le a
  have h3 := abs_round2_sub_le f
  have htri : |round2 (a - f) - (round2 a - round2 f)| ≤ 3 / 200 := by
    have e1 : round2 (a - f) - (round2 a - round2 f) =
        (round2 (a - f) - (a - f)) - (round2 a - a) + (round2 f - f) := by ring
    rw [e1]
    calc |(round2 (a - f) - (a - f)) - (round2 a - a) + (round2 f - f)|
        ≤ |(round2 (a - f) - (a - f)) - (round2 a - a)| + |round2 f - f| :=
          abs_add _ _
      _ ≤ |round2 (a - f) - (a - f)| + |round2 a - a| + |round2 f - f| := by
          have := abs_sub (round2 (a - f) - (a - f)) (round2 a - a)
          linarith
      _ ≤ 3 / 200 := by linarith
  have hzq : |(z : ℚ)| ≤ 3 / 2 := by
    rw [hz, abs_div, abs_of_pos (by norm_num : (0:ℚ) < 100)] at htri
    linarith
  have hzint : |z| ≤ 1 := by
    have h4 : ((|z| : ℤ) : ℚ) ≤ 3 / 2 := by rw [Int.cast_abs]; exact hzq
    have h5 : ((|z| : ℤ) : ℚ) < 2 := lt_of_le_of_lt h4 (by norm_num)
    have h6 : |z| < 2 := by exact_mod_cast h5
    omega
  rw [hz, abs_div, abs_of_pos (by norm_num : (0:ℚ) < 100)]
  have h7 : |(z : ℚ)| ≤ 1 := by
    rw [← Int.cast_abs]
    exact_mod_cast hzint
  linarith

/-! ## Decimal digit lemmas -/

theorem digitChar_toNat : ∀ d, d < 10 → (digitChar d).toNat = 48 + d := by decide

theorem digitChar_isDigit : ∀ d, d < 10 → (digitChar d).isDigit = true := by decide

theorem natDigitsAux_congr : ∀ n f1 f2, n ≤ f1 → n ≤ f2 →
    natDigitsAux f1 n = natDigitsAux f2 n := by
  intro n
  induction n using Nat.strong_induction_on with
  | _ n ih =>
    intro f1 f2 h1 h2
    match n, f1, f2 with
    | 0, f1, f2 => cases f1 <;> cases f2 <;> rfl
    | m + 1, a + 1, b + 1 =>
      show ((m + 1) % 10) :: natDigitsAux a ((m + 1) / 10) =
        ((m + 1) % 10) :: natDigitsAux b ((m + 1) / 10)
      have hd : (m + 1) / 10 < m + 1 := Nat.div_lt_self (Nat.succ_pos m) (by omega)
      rw [ih ((m + 1) / 10) hd a b (by omega) (by omega)]

theorem natDigitsLE_succ (m : Nat) :
    natDigitsLE (m + 1) = ((m + 1) % 10) :: natDigitsLE ((m + 1) / 10) := by
  show natDigitsAux (m + 1) (m + 1) = _
  have hd : (m + 1) / 10 < m + 1 := Nat.div_lt_self (Nat.succ_pos m) (by omega)
  show ((m + 1) % 10) :: natDigitsAux m ((m + 1) / 10) = _
  rw [natDigitsAux_congr ((m + 1) / 10) m ((m + 1) / 10) (by omega) (by omega)]
  rfl

theorem natDigitsLE_lt10 : ∀ n, ∀ d ∈ natDigitsLE n, d < 10 := by
  intro n
  induction n using Nat.strong_induction_on with
  | _ n ih =>
    match n with
    | 0 => simp [natDigitsLE, natDigitsAux]
    | m + 1 =>
      rw [natDigitsLE_succ]
      intro d hd
      rcases List.mem_cons.mp hd with h | h
      · omega
      · exact ih ((m + 1) / 10) (Nat.div_lt_self (Nat.succ_pos m) (by omega)) d h

theorem digitsToNat_append_single (l : List Char) (c : Char) :
    digitsToNat (l ++ [c]) = 10 * digitsToNat l + (c.toNat - 48) := by
  simp [digitsToNat, List.foldl_append]

theorem digitsToNat_LE : ∀ n, digitsToNat (((natDigitsLE n).reverse).map digitChar) = n := by
  intro n
  induction n using Nat.strong_induction_on with
  | _ n ih =>
    match n with
    | 0 => simp [natDigitsLE, natDigitsAux, digitsToNat]
    | m + 1 =>
      rw [natDigitsLE_succ]
      simp only [List.reverse_cons, List.map_append, List.map_cons, List.map_nil]
      rw [digitsToNat_append_single, ih ((m + 1) / 10) (Nat.div_lt_self (Nat.succ_pos m) (by omega))]
      rw [digitChar_toNat _ (Nat.mod_lt _ (by omega))]
      omega

theorem digitsToNat_natDigits (n : Nat) : digitsToNat (natDigits n) = n := by
  simp only [natDigits]
  split
  · subst n; decide
  · exact digitsToNat_LE n

theorem natDigits_ne_nil (n : Nat) : natDigits n ≠ [] := by
  simp only [natDigits]
  split
  · simp
  · rename_i h
    match hm : n with
    | 0 => exact absurd rfl h
    | m + 1 =>
      rw [natDigitsLE_succ]
      simp

theorem natDigits_all_digit (n : Nat) : ∀ c ∈ natDigits n, c.isDigit = true := by
  simp only [natDigits]
  split
  · intro c hc; simp at hc; subst hc; decide
  · intro c hc
    simp only [List.mem_map, List.mem_reverse] at hc
    obtain ⟨d, hd, rfl⟩ := hc
    exact digitChar_isDigit d (natDigitsLE_lt10 n d hd)

theorem digitsToNat_rep_zero (k : Nat) (l : List Char) :
    digitsToNat (List.replicate k '0' ++ l) = digitsToNat l := by
  induction k with
  | zero => simp
  | succ k ih =>
    rw [List.replicate_succ, List.cons_append]
    show digitsToNat (List.replicate k '0' ++ l) = _
    exact ih

/-! ## Scanner lemmas -/

theorem strip_pre (pre r : List Char) : strip pre (pre ++ r) = some r := by
  induction pre with
  | nil => rfl
  | cons p ps ih => simp [strip, ih]

theorem strip_cons_ne (p : Char) (ps : List Char) (c : Char) (cs : List Char)
    (h : c ≠ p) : strip (p :: ps) (c :: cs) = none := by
  simp [strip, h]

theorem skipWs_cons_not (c : Char) (cs : List Char) (h : isWsChar c = false) :
    skipWs (c :: cs) = c :: cs := by
  simp [skipWs, h]

theorem skipWs_append_ws (l r : List Char) (h : allWs l) :
    skipWs (l ++ r) = skipWs r := by
  induction l with
  | nil => rfl
  | cons c cs ih =>
    have hc : isWsChar c = true := h c (List.mem_cons_self c cs)
    rw [List.cons_append]
    show skipWs (c :: (cs ++ r)) = skipWs r
    rw [skipWs, if_pos hc]
    exact ih fun x hx => h x (List.mem_cons_of_mem c hx)

theorem takeWhile_all_append (p : Char → Bool) (l r : List Char)
    (h : ∀ c ∈ l, p c = true) :
    (l ++ r).takeWhile p = l ++ r.takeWhile p ∧ (l ++ r).dropWhile p = r.dropWhile p := by
  induction l with
  | nil => simp
  | cons c cs ih =>
    have hc : p c = true := h c (List.mem_cons_self c cs)
    have ihr := ih fun x hx => h x (List.mem_cons_of_mem c hx)
    simp [List.takeWhile, List.dropWhile, hc, ihr.1, ihr.2]

theorem takeWhile_head_false (p : Char → Bool) (r : List Char)
    (h : match r with | [] => True | c :: _ => p c = false) :
    r.takeWhile p = [] ∧ r.dropWhile p = r := by
  match r with
  | [] => simp
  | c :: cs => simp_all [List.takeWhile, List.dropWhile]

/-- A digit character is none of the JSON structural characters. -/
theorem digit_not_structural (c : Char) (h : c.isDigit = true) :
    isWsChar c = false ∧ c ≠ 'n' ∧ c ≠ 't' ∧ c ≠ 'f' ∧ c ≠ '"' ∧ c ≠ '[' ∧
      c ≠ '\x7b' ∧ c ≠ ']' ∧ c ≠ '\x7d' ∧ c ≠ '-' ∧ c ≠ '.' ∧ c ≠ ',' ∧ c ≠ ':' := by
  have hne : ∀ x : Char, x.isDigit = false → c ≠ x := by
    intro x hx heq
    subst heq
    rw [h] at hx
    exact Bool.noConfusion hx
  refine ⟨?_, hne 'n' (by decide), hne 't' (by decide), hne 'f' (by decide),
    hne '"' (by decide), hne '[' (by decide), hne '\x7b' (by decide),
    hne ']' (by decide), hne '\x7d' (by decide), hne '-' (by decide),
    hne '.' (by decide), hne ',' (by decide), hne ':' (by decide)⟩
  simp [isWsChar, hne ' ' (by decide), hne '\n' (by decide),
    hne '\t' (by decide), hne '\r' (by decide)]

theorem natDigits_head (n : Nat) :
    ∃ c cs, natDigits n = c :: cs ∧ c.isDigit = true := by
  cases hnd : natDigits n with
  | nil => exact absurd hnd (natDigits_ne_nil n)
  | cons c cs =>
    refine ⟨c, cs, rfl, ?_⟩
    exact natDigits_all_digit n c (hnd ▸ List.mem_cons_self c cs)

theorem padDigits_all_digit (e n : Nat) :
    ∀ c ∈ padDigits e (natDigits n), c.isDigit = true := by
  intro c hc
  rcases List.mem_append.mp hc with h | h
  · rw [List.eq_of_mem_replicate h]; decide
  · exact natDigits_all_digit n c h

theorem digitsToNat_padDigits (e n : Nat) :
    digitsToNat (padDigits e (natDigits n)) = n := by
  rw [padDigits, digitsToNat_rep_zero, digitsToNat_natDigits]

theorem padDigits_len (e : Nat) (ds : List Char) :
    e + 1 ≤ (padDigits e ds).length := by
  simp [padDigits]
  omega

theorem numSafe_take_drop (r : List Char) (hr : numSafe r) :
    r.takeWhile Char.isDigit = [] ∧ r.dropWhile Char.isDigit = r := by
  apply takeWhile_head_false
  cases r with
  | nil => trivial
  | cons a b => exact hr.1

theorem strip_dot_numSafe (r : List Char) (hr : numSafe r) :
    strip ['.'] r = none := by
  cases r with
  | nil => rfl
  | cons a b => exact strip_cons_ne _ _ _ _ hr.2

theorem dumpNum_neg (m : Int) (e : Nat) (hm : m < 0) :
    dumpNum m e = '-' :: dumpNum (m.natAbs : Int) e := by
  simp only [dumpNum, Int.natAbs_ofNat]
  rw [if_pos hm, if_neg (by omega : ¬((m.natAbs : Int) < 0))]
  split <;> rfl

theorem parseNum_dump_nonneg (n : Nat) (e : Nat) (r : List Char) (hr : numSafe r) :
    parseNum (dumpNum (n : Int) e ++ r) = some (.num (n : Int) e, r) := by
  have hnabs : ((n : Int)).natAbs = n := Int.natAbs_ofNat n
  have hnneg : ¬((n : Int) < 0) := by omega
  obtain ⟨c, cs, hnd, hcd⟩ := natDigits_head n
  have hfac := digit_not_structural c hcd
  have hrtd := numSafe_take_drop r hr
  cases e with
  | zero =>
    have hbody : dumpNum (n : Int) 0 = natDigits n := by
      simp [dumpNum, hnabs, hnneg]
    rw [hbody]
    have hsm : strip ['-'] (natDigits n ++ r) = none := by
      rw [hnd]; exact strip_cons_ne _ _ _ _ hfac.2.2.2.2.2.2.2.2.2.1
    have htd := takeWhile_all_append Char.isDigit (natDigits n) r (natDigits_all_digit n)
    have htake : (natDigits n ++ r).takeWhile Char.isDigit = natDigits n := by
      rw [htd.1, hrtd.1, List.append_nil]
    have hdrop : (natDigits n ++ r).dropWhile Char.isDigit = r := by
      rw [htd.2, hrtd.2]
    have hne : (natDigits n).isEmpty = false := by
      rw [hnd]; rfl
    simp only [parseNum, hsm, Option.isSome_none, Option.getD_none, htake, hdrop,
      hne, Bool.false_eq_true, if_false, strip_dot_numSafe r hr]
    rw [digitsToNat_natDigits]
    rfl
  | succ e' =>
    set e := e' + 1
    set pd := padDigits e (natDigits n) with hpd
    set k := pd.length - e with hk
    have hlen : e + 1 ≤ pd.length := by
      rw [hpd]; exact padDigits_len e (natDigits n)
    have hbody : dumpNum (n : Int) e = pd.take k ++ '.' :: pd.drop k := by
      simp only [dumpNum, hnabs, hnneg, if_false]
      rw [if_neg (by omega : ¬(e = 0))]
      rfl
    rw [hbody]
    have htk_digits : ∀ x ∈ pd.take k, x.isDigit = true := fun x hx =>
      padDigits_all_digit e n x (List.mem_of_mem_take hx)
    have hdk_digits : ∀ x ∈ pd.drop k, x.isDigit = true := fun x hx =>
      padDigits_all_digit e n x (List.mem_of_mem_drop hx)
    have htk_len : (pd.take k).length = k := by
      rw [List.length_take]; omega
    have hdk_len : (pd.drop k).length = e := by
      rw [List.length_drop]; omega
    obtain ⟨c0, cs0, hc0⟩ : ∃ c0 cs0, pd.take k = c0 :: cs0 := by
      cases hx : pd.take k with
      | nil => rw [hx] at htk_len; simp at htk_len; omega
      | cons a b => exact ⟨a, b, rfl⟩
    have hc0d : c0.isDigit = true := htk_digits c0 (hc0 ▸ List.mem_cons_self c0 cs0)
    have hfac0 := digit_not_structural c0 hc0d
    have hin : pd.take k ++ '.' :: pd.drop k ++ r =
        pd.take k ++ ('.' :: (pd.drop k ++ r)) := by simp
    have hsm : strip ['-'] (pd.take k ++ '.' :: pd.drop k ++ r) = none := by
      rw [hin, hc0, List.cons_append]
      exact strip_cons_ne _ _ _ _ hfac0.2.2.2.2.2.2.2.2.2.1
    have htd1 := takeWhile_all_append Char.isDigit (pd.take k)
      ('.' :: (pd.drop k ++ r)) htk_digits
    have hdotfalse : Char.isDigit '.' = false := by decide
    have htake1 : (pd.take k ++ '.' :: pd.drop k ++ r).takeWhile Char.isDigit =
        pd.take k := by
      rw [hin, htd1.1]
      simp [List.takeWhile, hdotfalse]
    have hdrop1 : (pd.take k ++ '.' :: pd.drop k ++ r).dropWhile Char.isDigit =
        '.' :: (pd.drop k ++ r) := by
      rw [hin, htd1.2]
      simp [List.dropWhile, hdotfalse]
    have hne1 : (pd.take k).isEmpty = false := by rw [hc0]; rfl
    have hstripdot : strip ['.'] ('.' :: (pd.drop k ++ r)) = some (pd.drop k ++ r) := by
      have : ('.' : Char) :: (pd.drop k ++ r) = ['.'] ++ (pd.drop k ++ r) := rfl
      rw [this, strip_pre]
    have htd2 := takeWhile_all_append Char.isDigit (pd.drop k) r hdk_digits
    have hrtd2 := numSafe_take_drop r hr
    have htake2 : (pd.drop k ++ r).takeWhile Char.isDigit = pd.drop k := by
      rw [htd2.1, hrtd2.1, List.append_nil]
    have hdrop2 : (pd.drop k ++ r).dropWhile Char.isDigit = r := by
      rw [htd2.2, hrtd2.2]
    have hne2 : (pd.drop k).isEmpty = false := by
      cases hx : pd.drop k with
      | nil => rw [hx] at hdk_len; simp at hdk_len; omega
      | cons a b => rfl
    simp only [parseNum, hsm, Option.isSome_none, Option.getD_none, htake1, hdrop1,
      hne1, Bool.false_eq_true, if_false, hstripdot, htake2, hdrop2, hne2]
    rw [List.take_append_drop, digitsToNat_padDigits, hdk_len]
    rfl

theorem dumpNum_nonneg_head (n e : Nat) :
    ∃ c cs, dumpNum (n : Int) e = c :: cs ∧ c.isDigit = true := by
  have hnabs : ((n : Int)).natAbs = n := Int.natAbs_ofNat n
  have hnneg : ¬((n : Int) < 0) := by omega
  cases e with
  | zero =>
    obtain ⟨c, cs, hnd, hcd⟩ := natDigits_head n
    exact ⟨c, cs, by simp [dumpNum, hnabs, hnneg, hnd], hcd⟩
  | succ e' =>
    set e := e' + 1
    set pd := padDigits e (natDigits n) with hpd
    set k := pd.length - e with hk
    have hlen : e + 1 ≤ pd.length := by
      rw [hpd]; exact padDigits_len e (natDigits n)
    have hbody : dumpNum (n : Int) e = pd.take k ++ '.' :: pd.drop k := by
      simp only [dumpNum, hnabs, hnneg, if_false]
      rw [if_neg (by omega : ¬(e = 0))]
      rfl
    have htk_len : (pd.take k).length = k := by
      rw [List.length_take]; omega
    obtain ⟨c0, cs0, hc0⟩ : ∃ c0 cs0, pd.take k = c0 :: cs0 := by
      cases hx : pd.take k with
      | nil => rw [hx] at htk_len; simp at htk_len; omega
      | cons a b => exact ⟨a, b, rfl⟩
    refine ⟨c0, cs0 ++ '.' :: pd.drop k, ?_, ?_⟩
    · rw [hbody, hc0]; rfl
    · exact padDigits_all_digit e n c0
        (List.mem_of_mem_take (hc0 ▸ List.mem_cons_self c0 cs0))

theorem parseNum_neg_flip (x : List Char) (hx : strip ['-'] x = none)
    (n e : Nat) (rest : List Char)
    (h : parseNum x = some (.num (n : Int) e, rest)) :
    parseNum ('-' :: x) = some (.num (-(n : Int)) e, rest) := by
  have hstrip : strip ['-'] ('-' :: x) = some x := by
    show strip ['-'] (['-'] ++ x) = some x
    exact strip_pre _ _
  simp only [parseNum, hx, Option.isSome_none, Option.getD_none] at h
  simp only [parseNum, hstrip, Option.isSome_some, Option.getD_some]
  by_cases hcase : (List.takeWhile Char.isDigit x).isEmpty = true
  · rw [if_pos hcase] at h
    exact absurd h (by simp)
  · rw [if_neg hcase] at h
    rw [if_neg hcase]
    cases hsd : strip ['.'] (List.dropWhile Char.isDigit x) with
    | none =>
      rw [hsd] at h
      dsimp only at h ⊢
      simp only [Option.some.injEq, Prod.mk.injEq, Json.num.injEq, intOfSign,
        Bool.false_eq_true, if_false, if_true] at h ⊢
      exact ⟨⟨by omega, h.1.2⟩, h.2⟩
    | some r2 =>
      rw [hsd] at h
      dsimp only at h ⊢
      by_cases hfs : (List.takeWhile Char.isDigit r2).isEmpty = true
      · rw [if_pos hfs] at h
        exact absurd h (by simp)
      · rw [if_neg hfs] at h
        rw [if_neg hfs]
        simp only [Option.some.injEq, Prod.mk.injEq, Json.num.injEq, intOfSign,
          Bool.false_eq_true, if_false, if_true] at h ⊢
        exact ⟨⟨by omega, h.1.2⟩, h.2⟩

theorem parseNum_dump (m : Int) (e : Nat) (r : List Char) (hr : numSafe r) :
    parseNum (dumpNum m e ++ r) = some (.num m e, r) := by
  rcases lt_or_ge m 0 with hm | hm
  · obtain ⟨c, cs, hhead, hcd⟩ := dumpNum_nonneg_head m.natAbs e
    have hx : strip ['-'] (dumpNum (m.natAbs : Int) e ++ r) = none := by
      rw [hhead, List.cons_append]
      exact strip_cons_ne _ _ _ _ (digit_not_structural c hcd).2.2.2.2.2.2.2.2.2.1
    have hbody := parseNum_dump_nonneg m.natAbs e r hr
    have hflip := parseNum_neg_flip _ hx m.natAbs e r hbody
    rw [dumpNum_neg m e hm, List.cons_append, hflip]
    have : -((m.natAbs : Nat) : Int) = m := by omega
    rw [this]
  · have h := parseNum_dump_nonneg m.natAbs e r hr
    rwa [Int.natAbs_of_nonneg hm] at h

/-! ## String escaping round trip -/

theorem hexVal_hexDigitChar : ∀ v, v < 16 → hexVal (hexDigitChar v) = some v := by
  decide

theorem parseStrChars_esc_char (c : Char) (t : List Char) :
    parseStrChars (escapeChar c ++ t) =
      (parseStrChars t).map fun p => (c :: p.1, p.2) := by
  by_cases h1 : c = '"'
  · subst h1
    show parseStrChars ('\\' :: '"' :: t) = _
    rw [parseStrChars.eq_def]
    simp [unescChar]
  by_cases h2 : c = '\\'
  · subst h2
    show parseStrChars ('\\' :: '\\' :: t) = _
    rw [parseStrChars.eq_def]
    simp [unescChar]
  by_cases h3 : c = '\n'
  · subst h3
    show parseStrChars ('\\' :: 'n' :: t) = _
    rw [parseStrChars.eq_def]
    simp [unescChar]
  by_cases h4 : c = '\t'
  · subst h4
    show parseStrChars ('\\' :: 't' :: t) = _
    rw [parseStrChars.eq_def]
    simp [unescChar]
  by_cases h5 : c = '\r'
  · subst h5
    show parseStrChars ('\\' :: 'r' :: t) = _
    rw [parseStrChars.eq_def]
    simp [unescChar]
  by_cases h6 : c.toNat = 8
  · have hc : c = Char.ofNat 8 := by rw [← Char.ofNat_toNat c, h6]
    subst hc
    show parseStrChars ('\\' :: 'b' :: t) = _
    rw [parseStrChars.eq_def]
    simp [unescChar]
  by_cases h7 : c.toNat = 12
  · have hc : c = Char.ofNat 12 := by rw [← Char.ofNat_toNat c, h7]
    subst hc
    show parseStrChars ('\\' :: 'f' :: t) = _
    rw [parseStrChars.eq_def]
    simp [unescChar]
  by_cases h8 : c.toNat < 32
  · have hesc : escapeChar c =
        ['\\', 'u', '0', '0', hexDigitChar (c.toNat / 16), hexDigitChar (c.toNat % 16)] := by
      simp [escapeChar, h1, h2, h3, h4, h5, h6, h7, h8]
    rw [hesc]
    show parseStrChars
        ('\\' :: 'u' :: '0' :: '0' :: hexDigitChar (c.toNat / 16) ::
          hexDigitChar (c.toNat % 16) :: t) = _
    rw [parseStrChars.eq_def]
    have hv1 : hexVal (hexDigitChar (c.toNat / 16)) = some (c.toNat / 16) :=
      hexVal_hexDigitChar _ (by omega)
    have hv2 : hexVal (hexDigitChar (c.toNat % 16)) = some (c.toNat % 16) :=
      hexVal_hexDigitChar _ (by omega)
    have h0 : hexVal '0' = some 0 := rfl
    have harith : c.toNat / 16 * 16 + c.toNat % 16 = c.toNat := by omega
    simp [hv1, hv2, h0, harith, Char.ofNat_toNat]
  · have hesc : escapeChar c = [c] := by
      simp [escapeChar, h1, h2, h3, h4, h5, h6, h7, h8]
    rw [hesc]
    show parseStrChars (c :: t) = _
    rw [parseStrChars.eq_def]
    simp [h1, h2]

theorem parseStrChars_esc (l r : List Char) :
    parseStrChars (escChars l ++ ('"' :: r)) = some (l, r) := by
  induction l with
  | nil =>
    show parseStrChars ('"' :: r) = _
    rw [parseStrChars.eq_def]
    simp
  | cons c cs ih =>
    rw [escChars, List.append_assoc, parseStrChars_esc_char, ih]
    rfl

/-! ## Preparation for the serializer/parser round trip -/

theorem string_mk_toList (s : String) : String.mk s.toList = s := by
  cases s
  rfl

theorem ws_not_digit (c : Char) (h : isWsChar c = true) :
    c.isDigit = false ∧ c ≠ '.' := by
  simp only [isWsChar, Bool.or_eq_true, decide_eq_true_eq] at h
  rcases h with ((rfl | rfl) | rfl) | rfl <;> exact ⟨by decide, by decide⟩

theorem allWs_nil : allWs [] := by
  intro c hc
  cases hc

theorem allWs_spacesN (n : Nat) : allWs (spacesN n) := by
  intro c hc
  rw [List.eq_of_mem_replicate hc]
  decide

theorem allWs_nl_spaces (n : Nat) : allWs ('\n' :: spacesN n) := by
  intro c hc
  rcases List.mem_cons.mp hc with rfl | hc
  · decide
  · exact allWs_spacesN n c hc

theorem numSafe_ws_close (wsC : List Char) (hws : allWs wsC) (c : Char)
    (hc : c.isDigit = false ∧ c ≠ '.') (r : List Char) :
    numSafe (wsC ++ (c :: r)) := by
  cases wsC with
  | nil => exact hc
  | cons w t => exact ws_not_digit w (hws w (List.mem_cons_self w t))

theorem jnodes_pos (j : Json) : 1 ≤ jnodes j := by
  cases j <;> simp [jnodes]

theorem inodes_cons (x : Json) (xs : List Json) :
    inodes (x :: xs) = jnodes x + inodes xs := by
  simp [inodes]

theorem knodes_cons (k : String) (v : Json) (kvs : List (String × Json)) :
    knodes ((k, v) :: kvs) = jnodes v + knodes kvs := by
  simp [knodes]

theorem dumpNum_head (m : Int) (e : Nat) :
    ∃ c cs, dumpNum m e = c :: cs ∧ (c = '-' ∨ c.isDigit = true) := by
  rcases lt_or_ge m 0 with hm | hm
  · exact ⟨'-', _, dumpNum_neg m e hm, Or.inl rfl⟩
  · obtain ⟨c, cs, hd, hcd⟩ := dumpNum_nonneg_head m.natAbs e
    rw [Int.natAbs_of_nonneg hm] at hd
    exact ⟨c, cs, hd, Or.inr hcd⟩

theorem dumpNum_head_facts (c : Char) (h : c = '-' ∨ c.isDigit = true) :
    isWsChar c = false ∧ c ≠ 'n' ∧ c ≠ 't' ∧ c ≠ 'f' ∧ c ≠ '"' ∧ c ≠ '[' ∧
      c ≠ '\x7b' := by
  rcases h with rfl | h
  · exact ⟨by decide, by decide, by decide, by decide, by decide, by decide, by decide⟩
  · have hf := digit_not_structural c h
    exact ⟨hf.1, hf.2.1, hf.2.2.1, hf.2.2.2.1, hf.2.2.2.2.1, hf.2.2.2.2.2.1,
      hf.2.2.2.2.2.2.1⟩

theorem dumpV_head (d : Nat) (j : Json) :
    ∃ c cs, dumpV d j = c :: cs ∧ isWsChar c = false ∧ c ≠ ']' ∧ c ≠ '\x7d' := by
  cases j with
  | null =>
    refine ⟨'n', ['u', 'l', 'l'], ?_, by decide, by decide, by decide⟩
    simp [dumpV]
  | bool b =>
    cases b
    · refine ⟨'f', ['a', 'l', 's', 'e'], ?_, by decide, by decide, by decide⟩
      simp [dumpV]
    · refine ⟨'t', ['r', 'u', 'e'], ?_, by decide, by decide, by decide⟩
      simp [dumpV]
  | num m e =>
    obtain ⟨c, cs, hd, hor⟩ := dumpNum_head m e
    have hf := dumpNum_head_facts c hor
    refine ⟨c, cs, by simp [dumpV, hd], hf.1, ?_, ?_⟩
    · rcases hor with rfl | hdig
      · decide
      · exact (digit_not_structural c hdig).2.2.2.2.2.2.2.1
    · rcases hor with rfl | hdig
      · decide
      · exact (digit_not_structural c hdig).2.2.2.2.2.2.2.2.1
  | str s =>
    refine ⟨'"', escChars s.toList ++ ['"'], ?_, by decide, by decide, by decide⟩
    simp [dumpV, dumpStr]
  | arr xs =>
    cases xs with
    | nil =>
      refine ⟨'[', [']'], ?_, by decide, by decide, by decide⟩
      simp [dumpV]
    | cons x t =>
      refine ⟨'[', '\n' :: (spacesN (2 * (d + 1)) ++ (dumpV (d + 1) x ++
        (dumpItemsRest (d + 1) t ++ '\n' :: (spacesN (2 * d) ++ [']'])))),
        ?_, by decide, by decide, by decide⟩
      simp [dumpV]
  | obj kvs =>
    cases kvs with
    | nil =>
      refine ⟨'\x7b', ['\x7d'], ?_, by decide, by decide, by decide⟩
      simp [dumpV]
    | cons kv t =>
      obtain ⟨k, v⟩ := kv
      refine ⟨'\x7b', '\n' :: (spacesN (2 * (d + 1)) ++ (dumpStr k ++
        (':' :: ' ' :: (dumpV (d + 1) v ++
          (dumpMembersRest (d + 1) t ++ '\n' :: (spacesN (2 * d) ++ ['\x7d'])))))),
        ?_, by decide, by decide, by decide⟩
      simp [dumpV]

theorem parseV_ws (f : Nat) (ws0 t : List Char) (h : allWs ws0) :
    parseV f (ws0 ++ t) = parseV f t := by
  cases f with
  | zero => simp [parseV]
  | succ f => simp only [parseV, skipWs_append_ws ws0 t h]

/-! ## Round trip: leaf cases of the value parser -/

theorem parseV_null (f d : Nat) (r : List Char) :
    parseV (f + 1) (dumpV d .null ++ r) = some (.null, r) := by
  have hd : dumpV d Json.null = ['n', 'u', 'l', 'l'] := by simp [dumpV]
  rw [hd]
  show parseV (f + 1) ('n' :: 'u' :: 'l' :: 'l' :: r) = _
  rw [parseV]
  simp [skipWs, strip]

theorem parseV_true (f d : Nat) (r : List Char) :
    parseV (f + 1) (dumpV d (.bool true) ++ r) = some (.bool true, r) := by
  have hd : dumpV d (Json.bool true) = ['t', 'r', 'u', 'e'] := by simp [dumpV]
  rw [hd]
  show parseV (f + 1) ('t' :: 'r' :: 'u' :: 'e' :: r) = _
  rw [parseV]
  simp [skipWs, strip]

theorem parseV_false (f d : Nat) (r : List Char) :
    parseV (f + 1) (dumpV d (.bool false) ++ r) = some (.bool false, r) := by
  have hd : dumpV d (Json.bool false) = ['f', 'a', 'l', 's', 'e'] := by simp [dumpV]
  rw [hd]
  show parseV (f + 1) ('f' :: 'a' :: 'l' :: 's' :: 'e' :: r) = _
  rw [parseV]
  simp [skipWs, strip]

theorem parseV_num (f d : Nat) (m : Int) (e : Nat) (r : List Char) (hr : numSafe r) :
    parseV (f + 1) (dumpV d (.num m e) ++ r) = some (.num m e, r) := by
  have hdv : dumpV d (Json.num m e) = dumpNum m e := by simp [dumpV]
  obtain ⟨c, cs, hd, hor⟩ := dumpNum_head m e
  have hf := dumpNum_head_facts c hor
  have h1 : dumpNum m e ++ r = c :: (cs ++ r) := by rw [hd]; rfl
  rw [hdv, h1, parseV]
  rw [skipWs_cons_not _ _ hf.1]
  rw [strip_cons_ne _ _ _ _ hf.2.1, strip_cons_ne _ _ _ _ hf.2.2.1,
    strip_cons_ne _ _ _ _ hf.2.2.2.1, strip_cons_ne _ _ _ _ hf.2.2.2.2.1,
    strip_cons_ne _ _ _ _ hf.2.2.2.2.2.1, strip_cons_ne _ _ _ _ hf.2.2.2.2.2.2]
  rw [← h1]
  exact parseNum_dump m e r hr

theorem parseV_str (f d : Nat) (s : String) (r : List Char) :
    parseV (f + 1) (dumpV d (.str s) ++ r) = some (.str s, r) := by
  have hdv : dumpV d (Json.str s) = '"' :: (escChars s.toList ++ ['"']) := by
    simp [dumpV, dumpStr]
  rw [hdv]
  have h1 : ('"' :: (escChars s.toList ++ ['"'])) ++ r =
      '"' :: (escChars s.toList ++ ('"' :: r)) := by simp
  rw [h1, parseV]
  rw [skipWs_cons_not _ _ (by decide)]
  rw [strip_cons_ne _ _ _ _ (by decide), strip_cons_ne _ _ _ _ (by decide),
    strip_cons_ne _ _ _ _ (by decide)]
  have hq : strip ['"'] ('"' :: (escChars s.toList ++ ('"' :: r))) =
      some (escChars s.toList ++ ('"' :: r)) := by
    show strip ['"'] (['"'] ++ (escChars s.toList ++ ('"' :: r))) = _
    rw [strip_pre]
  rw [hq]
  dsimp only
  rw [parseStrChars_esc]
  simp [string_mk_toList]

theorem parseV_arr_nil (f d : Nat) (r : List Char) :
    parseV (f + 1) (dumpV d (.arr []) ++ r) = some (.arr [], r) := by
  have hd : dumpV d (Json.arr []) = ['[', ']'] := by simp [dumpV]
  rw [hd]
  show parseV (f + 1) ('[' :: ']' :: r) = _
  rw [parseV]
  simp [skipWs, strip]

theorem parseV_obj_nil (f d : Nat) (r : List Char) :
    parseV (f + 1) (dumpV d (.obj []) ++ r) = some (.obj [], r) := by
  have hd : dumpV d (Json.obj []) = ['\x7b', '\x7d'] := by simp [dumpV]
  rw [hd]
  show parseV (f + 1) ('\x7b' :: '\x7d' :: r) = _
  rw [parseV]
  simp [skipWs, strip]

/-! ## Round trip: container cases and container-body steps -/

theorem parseV_arr_cons (f d : Nat) (x : Json) (t : List Json) (r : List Char)
    (hitems : parseItems f
      (dumpV (d + 1) x ++ (dumpItemsRest (d + 1) t ++
        (('\n' :: spacesN (2 * d)) ++ (']' :: r)))) = some (x :: t, r)) :
    parseV (f + 1) (dumpV d (.arr (x :: t)) ++ r) = some (.arr (x :: t), r) := by
  obtain ⟨c, cs, hdx, hnws, hneq1, _⟩ := dumpV_head (d + 1) x
  have hA : dumpV d (Json.arr (x :: t)) ++ r =
      '[' :: (('\n' :: spacesN (2 * (d + 1))) ++ (dumpV (d + 1) x ++
        (dumpItemsRest (d + 1) t ++ (('\n' :: spacesN (2 * d)) ++ (']' :: r))))) := by
    simp [dumpV]
  rw [hA, parseV]
  rw [skipWs_cons_not _ _ (by decide)]
  rw [strip_cons_ne _ _ _ _ (by decide), strip_cons_ne _ _ _ _ (by decide),
    strip_cons_ne _ _ _ _ (by decide), strip_cons_ne _ _ _ _ (by decide)]
  have hsb : strip ['[']
      ('[' :: (('\n' :: spacesN (2 * (d + 1))) ++ (dumpV (d + 1) x ++
        (dumpItemsRest (d + 1) t ++ (('\n' :: spacesN (2 * d)) ++ (']' :: r)))))) =
      some (('\n' :: spacesN (2 * (d + 1))) ++ (dumpV (d + 1) x ++
        (dumpItemsRest (d + 1) t ++ (('\n' :: spacesN (2 * d)) ++ (']' :: r))))) :=
    strip_pre ['['] _
  rw [hsb]
  dsimp only
  have hskip : skipWs (('\n' :: spacesN (2 * (d + 1))) ++ (dumpV (d + 1) x ++
      (dumpItemsRest (d + 1) t ++ (('\n' :: spacesN (2 * d)) ++ (']' :: r))))) =
      dumpV (d + 1) x ++ (dumpItemsRest (d + 1) t ++
        (('\n' :: spacesN (2 * d)) ++ (']' :: r))) := by
    rw [skipWs_append_ws _ _ (allWs_nl_spaces _)]
    rw [hdx, List.cons_append, skipWs_cons_not _ _ hnws, ← List.cons_append, ← hdx]
  rw [hskip]
  have hsn : strip [']'] (dumpV (d + 1) x ++ (dumpItemsRest (d + 1) t ++
      (('\n' :: spacesN (2 * d)) ++ (']' :: r)))) = none := by
    rw [hdx, List.cons_append]
    exact strip_cons_ne _ _ _ _ hneq1
  rw [hsn]
  dsimp only
  rw [hitems]
  rfl

theorem parseV_obj_cons (f d : Nat) (k : String) (v : Json)
    (t : List (String × Json)) (r : List Char)
    (hmembers : parseMembers f
      (dumpStr k ++ (':' :: ' ' :: (dumpV (d + 1) v ++ (dumpMembersRest (d + 1) t ++
        (('\n' :: spacesN (2 * d)) ++ ('\x7d' :: r)))))) = some ((k, v) :: t, r)) :
    parseV (f + 1) (dumpV d (.obj ((k, v) :: t)) ++ r) = some (.obj ((k, v) :: t), r) := by
  have hA : dumpV d (Json.obj ((k, v) :: t)) ++ r =
      '\x7b' :: (('\n' :: spacesN (2 * (d + 1))) ++ (dumpStr k ++
        (':' :: ' ' :: (dumpV (d + 1) v ++ (dumpMembersRest (d + 1) t ++
          (('\n' :: spacesN (2 * d)) ++ ('\x7d' :: r))))))) := by
    simp [dumpV, dumpStr]
  rw [hA, parseV]
  rw [skipWs_cons_not _ _ (by decide)]
  rw [strip_cons_ne _ _ _ _ (by decide), strip_cons_ne _ _ _ _ (by decide),
    strip_cons_ne _ _ _ _ (by decide), strip_cons_ne _ _ _ _ (by decide),
    strip_cons_ne _ _ _ _ (by decide)]
  have hsb : strip ['\x7b']
      ('\x7b' :: (('\n' :: spacesN (2 * (d + 1))) ++ (dumpStr k ++
        (':' :: ' ' :: (dumpV (d + 1) v ++ (dumpMembersRest (d + 1) t ++
          (('\n' :: spacesN (2 * d)) ++ ('\x7d' :: r)))))))) =
      some (('\n' :: spacesN (2 * (d + 1))) ++ (dumpStr k ++
        (':' :: ' ' :: (dumpV (d + 1) v ++ (dumpMembersRest (d + 1) t ++
          (('\n' :: spacesN (2 * d)) ++ ('\x7d' :: r))))))) :=
    strip_pre ['\x7b'] _
  rw [hsb]
  dsimp only
  have hskip : skipWs (('\n' :: spacesN (2 * (d + 1))) ++ (dumpStr k ++
      (':' :: ' ' :: (dumpV (d + 1) v ++ (dumpMembersRest (d + 1) t ++
        (('\n' :: spacesN (2 * d)) ++ ('\x7d' :: r))))))) =
      dumpStr k ++ (':' :: ' ' :: (dumpV (d + 1) v ++ (dumpMembersRest (d + 1) t ++
        (('\n' :: spacesN (2 * d)) ++ ('\x7d' :: r))))) := by
    rw [skipWs_append_ws _ _ (allWs_nl_spaces _)]
    rw [dumpStr, List.cons_append, skipWs_cons_not _ _ (by decide)]
  rw [hskip]
  have hsn : strip ['\x7d'] (dumpStr k ++ (':' :: ' ' :: (dumpV (d + 1) v ++
      (dumpMembersRest (d + 1) t ++ (('\n' :: spacesN (2 * d)) ++ ('\x7d' :: r)))))) =
      none := by
    rw [dumpStr, List.cons_append]
    exact strip_cons_ne _ _ _ _ (by decide)
  rw [hsn]
  dsimp only
  rw [hmembers]
  rfl

theorem strip_single (c : Char) (r : List Char) : strip [c] (c :: r) = some r :=
  strip_pre [c] r

theorem allWs_space : allWs [' '] := by
  intro c hc
  rcases List.mem_cons.mp hc with rfl | hc
  · decide
  · cases hc

theorem parseItems_last (f d : Nat) (x : Json) (ws0 wsC r : List Char)
    (hws0 : allWs ws0) (hwsC : allWs wsC)
    (hV : ∀ rest, numSafe rest → parseV (f + 1) (dumpV d x ++ rest) = some (x, rest)) :
    parseItems (f + 1) (ws0 ++ (dumpV d x ++ (wsC ++ (']' :: r)))) = some ([x], r) := by
  rw [parseItems]
  have hpv : parseV (f + 1) (ws0 ++ (dumpV d x ++ (wsC ++ (']' :: r)))) =
      some (x, wsC ++ (']' :: r)) := by
    rw [parseV_ws _ _ _ hws0]
    exact hV _ (numSafe_ws_close wsC hwsC ']' ⟨by decide, by decide⟩ r)
  rw [hpv]
  dsimp only
  have hskip : skipWs (wsC ++ (']' :: r)) = ']' :: r := by
    rw [skipWs_append_ws _ _ hwsC, skipWs_cons_not _ _ (by decide)]
  rw [hskip]
  rw [strip_cons_ne _ _ _ _ (by decide)]
  dsimp only
  rw [strip_single ']' r]

theorem parseItems_cons (f d : Nat) (x y : Json) (ys : List Json)
    (ws0 wsC r : List Char) (hws0 : allWs ws0) (_hwsC : allWs wsC)
    (hV : ∀ rest, numSafe rest → parseV (f + 1) (dumpV d x ++ rest) = some (x, rest))
    (hrec : parseItems f (('\n' :: spacesN (2 * d)) ++ (dumpV d y ++
      (dumpItemsRest d ys ++ (wsC ++ (']' :: r))))) = some (y :: ys, r)) :
    parseItems (f + 1) (ws0 ++ (dumpV d x ++ (dumpItemsRest d (y :: ys) ++
      (wsC ++ (']' :: r))))) = some (x :: y :: ys, r) := by
  have hrest : dumpItemsRest d (y :: ys) ++ (wsC ++ (']' :: r)) =
      ',' :: (('\n' :: spacesN (2 * d)) ++ (dumpV d y ++
        (dumpItemsRest d ys ++ (wsC ++ (']' :: r))))) := by
    simp [dumpItemsRest]
  rw [parseItems]
  have hpv : parseV (f + 1) (ws0 ++ (dumpV d x ++ (dumpItemsRest d (y :: ys) ++
      (wsC ++ (']' :: r))))) =
      some (x, dumpItemsRest d (y :: ys) ++ (wsC ++ (']' :: r))) := by
    rw [parseV_ws _ _ _ hws0]
    refine hV _ ?_
    rw [hrest]
    exact ⟨by decide, by decide⟩
  rw [hpv]
  dsimp only
  rw [hrest]
  rw [skipWs_cons_not _ _ (by decide)]
  rw [strip_single ',' _]
  dsimp only
  rw [hrec]

theorem parseMembers_last (f d : Nat) (k : String) (v : Json)
    (ws0 wsC r : List Char) (hws0 : allWs ws0) (hwsC : allWs wsC)
    (hV : ∀ rest, numSafe rest → parseV (f + 1) (dumpV d v ++ rest) = some (v, rest)) :
    parseMembers (f + 1) (ws0 ++ (dumpStr k ++ (':' :: ' ' ::
      (dumpV d v ++ (wsC ++ ('\x7d' :: r)))))) = some ([(k, v)], r) := by
  have hform : ws0 ++ (dumpStr k ++ (':' :: ' ' ::
      (dumpV d v ++ (wsC ++ ('\x7d' :: r))))) =
      ws0 ++ ('"' :: (escChars k.toList ++ ('"' :: (':' :: ' ' ::
        (dumpV d v ++ (wsC ++ ('\x7d' :: r))))))) := by
    simp [dumpStr]
  rw [hform, parseMembers]
  rw [skipWs_append_ws _ _ hws0, skipWs_cons_not _ _ (by decide)]
  rw [strip_single '"' _]
  dsimp only
  rw [parseStrChars_esc]
  dsimp only
  rw [skipWs_cons_not _ _ (by decide)]
  rw [strip_single ':' _]
  dsimp only
  have h4 : (' ' :: (dumpV d v ++ (wsC ++ ('\x7d' :: r)))) =
      [' '] ++ (dumpV d v ++ (wsC ++ ('\x7d' :: r))) := rfl
  rw [h4, parseV_ws _ _ _ allWs_space]
  rw [hV _ (numSafe_ws_close wsC hwsC '\x7d' ⟨by decide, by decide⟩ r)]
  dsimp only
  rw [skipWs_append_ws _ _ hwsC, skipWs_cons_not _ _ (by decide)]
  rw [strip_cons_ne _ _ _ _ (by decide)]
  dsimp only
  rw [strip_single '\x7d' r]
  simp [string_mk_toList]

theorem parseMembers_cons (f d : Nat) (k : String) (v : Json)
    (k2 : String) (v2 : Json) (tl : List (String × Json))
    (ws0 wsC r : List Char) (hws0 : allWs ws0) (_hwsC : allWs wsC)
    (hV : ∀ rest, numSafe rest → parseV (f + 1) (dumpV d v ++ rest) = some (v, rest))
    (hrec : parseMembers f (('\n' :: spacesN (2 * d)) ++ (dumpStr k2 ++
      (':' :: ' ' :: (dumpV d v2 ++ (dumpMembersRest d tl ++
        (wsC ++ ('\x7d' :: r))))))) = some ((k2, v2) :: tl, r)) :
    parseMembers (f + 1) (ws0 ++ (dumpStr k ++ (':' :: ' ' ::
      (dumpV d v ++ (dumpMembersRest d ((k2, v2) :: tl) ++
        (wsC ++ ('\x7d' :: r))))))) = some ((k, v) :: (k2, v2) :: tl, r) := by
  have hrest : dumpMembersRest d ((k2, v2) :: tl) ++ (wsC ++ ('\x7d' :: r)) =
      ',' :: (('\n' :: spacesN (2 * d)) ++ (dumpStr k2 ++
        (':' :: ' ' :: (dumpV d v2 ++ (dumpMembersRest d tl ++
          (wsC ++ ('\x7d' :: r))))))) := by
    simp [dumpMembersRest, dumpStr]
  have hform : ws0 ++ (dumpStr k ++ (':' :: ' ' ::
      (dumpV d v ++ (dumpMembersRest d ((k2, v2) :: tl) ++ (wsC ++ ('\x7d' :: r)))))) =
      ws0 ++ ('"' :: (escChars k.toList ++ ('"' :: (':' :: ' ' ::
        (dumpV d v ++ (dumpMembersRest d ((k2, v2) :: tl) ++
          (wsC ++ ('\x7d' :: r)))))))) := by
    simp [dumpStr]
  rw [hform, parseMembers]
  rw [skipWs_append_ws _ _ hws0, skipWs_cons_not _ _ (by decide)]
  rw [strip_single '"' _]
  dsimp only
  rw [parseStrChars_esc]
  dsimp only
  rw [skipWs_cons_not _ _ (by decide)]
  rw [strip_single ':' _]
  dsimp only
  have h4 : (' ' :: (dumpV d v ++ (dumpMembersRest d ((k2, v2) :: tl) ++
      (wsC ++ ('\x7d' :: r))))) =
      [' '] ++ (dumpV d v ++ (dumpMembersRest d ((k2, v2) :: tl) ++
        (wsC ++ ('\x7d' :: r)))) := rfl
  rw [h4, parseV_ws _ _ _ allWs_space]
  have hpv : parseV (f + 1) (dumpV d v ++ (dumpMembersRest d ((k2, v2) :: tl) ++
      (wsC ++ ('\x7d' :: r)))) =
      some (v, dumpMembersRest d ((k2, v2) :: tl) ++ (wsC ++ ('\x7d' :: r))) := by
    refine hV _ ?_
    rw [hrest]
    exact ⟨by decide, by decide⟩
  rw [hpv]
  dsimp only
  rw [hrest]
  rw [skipWs_cons_not _ _ (by decide)]
  rw [strip_single ',' _]
  dsimp only
  rw [hrec]
  simp [string_mk_toList]

/-- Round trip of the `json.dump` serializer through the `json.load` parser,
for every JSON value, at any depth, with enough fuel. -/
theorem rt_bundle : ∀ fuel : Nat,
    (∀ j d r, jnodes j ≤ fuel → numSafe r →
        parseV fuel (dumpV d j ++ r) = some (j, r)) ∧
    (∀ x xs d ws0 wsC r, allWs ws0 → allWs wsC → inodes (x :: xs) ≤ fuel →
        parseItems fuel
          (ws0 ++ (dumpV d x ++ (dumpItemsRest d xs ++ (wsC ++ (']' :: r))))) =
          some (x :: xs, r)) ∧
    (∀ k v kvs d ws0 wsC r, allWs ws0 → allWs wsC →
        knodes ((k, v) :: kvs) ≤ fuel →
        parseMembers fuel
          (ws0 ++ (dumpStr k ++ (':' :: ' ' ::
            (dumpV d v ++ (dumpMembersRest d kvs ++ (wsC ++ ('\x7d' :: r))))))) =
          some ((k, v) :: kvs, r)) := by
  intro fuel
  induction fuel using Nat.strong_induction_on with
  | _ fuel ih =>
    match fuel with
    | 0 =>
      refine ⟨?_, ?_, ?_⟩
      · intro j d r hn _
        have := jnodes_pos j
        omega
      · intro x xs d ws0 wsC r _ _ hb
        rw [inodes_cons] at hb
        have := jnodes_pos x
        omega
      · intro k v kvs d ws0 wsC r _ _ hb
        rw [knodes_cons] at hb
        have := jnodes_pos v
        omega
    | f + 1 =>
      have ihf := ih f (Nat.lt_succ_self f)
      have hP1 : ∀ j d r, jnodes j ≤ f + 1 → numSafe r →
          parseV (f + 1) (dumpV d j ++ r) = some (j, r) := by
        intro j d r hn hr
        cases j with
        | null => exact parseV_null f d r
        | bool b =>
          cases b
          · exact parseV_false f d r
          · exact parseV_true f d r
        | num m e => exact parseV_num f d m e r hr
        | str s => exact parseV_str f d s r
        | arr xs =>
          cases xs with
          | nil => exact parseV_arr_nil f d r
          | cons x t =>
            have hb : inodes (x :: t) ≤ f := by
              have hjn : jnodes (Json.arr (x :: t)) = inodes (x :: t) + 1 := by
                simp [jnodes]
              omega
            have hitems := ihf.2.1 x t (d + 1) [] ('\n' :: spacesN (2 * d)) r
              allWs_nil (allWs_nl_spaces _) hb
            rw [List.nil_append] at hitems
            exact parseV_arr_cons f d x t r hitems
        | obj kvs =>
          cases kvs with
          | nil => exact parseV_obj_nil f d r
          | cons kv t =>
            obtain ⟨k, v⟩ := kv
            have hb : knodes ((k, v) :: t) ≤ f := by
              have hjn : jnodes (Json.obj ((k, v) :: t)) = knodes ((k, v) :: t) + 1 := by
                simp [jnodes]
              omega
            have hmembers := ihf.2.2 k v t (d + 1) [] ('\n' :: spacesN (2 * d)) r
              allWs_nil (allWs_nl_spaces _) hb
            rw [List.nil_append] at hmembers
            exact parseV_obj_cons f d k v t r hmembers
      have hP2 : ∀ x xs d ws0 wsC r, allWs ws0 → allWs wsC →
          inodes (x :: xs) ≤ f + 1 →
          parseItems (f + 1)
            (ws0 ++ (dumpV d x ++ (dumpItemsRest d xs ++ (wsC ++ (']' :: r))))) =
            some (x :: xs, r) := by
        intro x xs d ws0 wsC r hws0 hwsC hb
        rw [inodes_cons] at hb
        have hvx : jnodes x ≤ f + 1 := by
          have := jnodes_pos x
          have hip : 0 ≤ inodes xs := Nat.zero_le _
          omega
        have hV : ∀ rest, numSafe rest →
            parseV (f + 1) (dumpV d x ++ rest) = some (x, rest) :=
          fun rest hsafe => hP1 x d rest hvx hsafe
        cases xs with
        | nil =>
          have h0 : dumpItemsRest d ([] : List Json) ++ (wsC ++ (']' :: r)) =
              wsC ++ (']' :: r) := by
            simp [dumpItemsRest]
          rw [h0]
          exact parseItems_last f d x ws0 wsC r hws0 hwsC hV
        | cons y ys =>
          have hb2 : inodes (y :: ys) ≤ f := by
            have := jnodes_pos x
            omega
          have hrec := ihf.2.1 y ys d ('\n' :: spacesN (2 * d)) wsC r
            (allWs_nl_spaces _) hwsC hb2
          exact parseItems_cons f d x y ys ws0 wsC r hws0 hwsC hV hrec
      have hP3 : ∀ k v kvs d ws0 wsC r, allWs ws0 → allWs wsC →
          knodes ((k, v) :: kvs) ≤ f + 1 →
          parseMembers (f + 1)
            (ws0 ++ (dumpStr k ++ (':' :: ' ' ::
              (dumpV d v ++ (dumpMembersRest d kvs ++ (wsC ++ ('\x7d' :: r))))))) =
            some ((k, v) :: kvs, r) := by
        intro k v kvs d ws0 wsC r hws0 hwsC hb
        rw [knodes_cons] at hb
        have hvv : jnodes v ≤ f + 1 := by
          have := jnodes_pos v
          have hip : 0 ≤ knodes kvs := Nat.zero_le _
          omega
        have hV : ∀ rest, numSafe rest →
            parseV (f + 1) (dumpV d v ++ rest) = some (v, rest) :=
          fun rest hsafe => hP1 v d rest hvv hsafe
        cases kvs with
        | nil =>
          have h0 : dumpMembersRest d ([] : List (String × Json)) ++
              (wsC ++ ('\x7d' :: r)) = wsC ++ ('\x7d' :: r) := by
            simp [dumpMembersRest]
          rw [h0]
          exact parseMembers_last f d k v ws0 wsC r hws0 hwsC hV
        | cons kv2 tl =>
          obtain ⟨k2, v2⟩ := kv2
          have hb2 : knodes ((k2, v2) :: tl) ≤ f := by
            have := jnodes_pos v
            omega
          have hrec := ihf.2.2 k2 v2 tl d ('\n' :: spacesN (2 * d)) wsC r
            (allWs_nl_spaces _) hwsC hb2
          exact parseMembers_cons f d k v k2 v2 tl ws0 wsC r hws0 hwsC hV hrec
      exact ⟨hP1, hP2, hP3⟩

/-- Node counts are bounded by serialized length (so the length-based fuel of
`json_loads` is always sufficient). -/
theorem nodes_le_len : ∀ n : Nat,
    (∀ j d, sizeOf j ≤ n → jnodes j ≤ (dumpV d j).length) ∧
    (∀ xs d, sizeOf xs ≤ n → inodes xs ≤ (dumpItemsRest d xs).length) ∧
    (∀ kvs d, sizeOf kvs ≤ n → knodes kvs ≤ (dumpMembersRest d kvs).length) := by
  intro n
  induction n using Nat.strong_induction_on with
  | _ n ih =>
    match n with
    | 0 =>
      refine ⟨?_, ?_, ?_⟩
      · intro j d hsz
        have : 0 < sizeOf j := by cases j <;> simp
        omega
      · intro xs d hsz
        have : 0 < sizeOf xs := by cases xs <;> simp
        omega
      · intro kvs d hsz
        have : 0 < sizeOf kvs := by cases kvs <;> simp
        omega
    | m + 1 =>
      have ihm := ih m (Nat.lt_succ_self m)
      refine ⟨?_, ?_, ?_⟩
      · intro j d hsz
        cases j with
        | null => simp [jnodes, dumpV]
        | bool b => cases b <;> simp [jnodes, dumpV]
        | num me e =>
          obtain ⟨c, cs, hd, _⟩ := dumpNum_head me e
          simp [jnodes, dumpV, hd]
        | str s => simp [jnodes, dumpV, dumpStr]
        | arr xs =>
          cases xs with
          | nil => simp [jnodes, inodes, dumpV]
          | cons x t =>
            have hszx : sizeOf x ≤ m := by simp at hsz; omega
            have hszt : sizeOf t ≤ m := by simp at hsz; omega
            have h1 := ihm.1 x (d + 1) hszx
            have h2 := ihm.2.1 t (d + 1) hszt
            have hjn : jnodes (Json.arr (x :: t)) = jnodes x + inodes t + 1 := by
              simp [jnodes, inodes]
            have hlen : (dumpV d (Json.arr (x :: t))).length =
                (dumpV (d + 1) x).length + (dumpItemsRest (d + 1) t).length +
                  (2 * (d + 1)) + (2 * d) + 4 := by
              simp [dumpV, spacesN]
              omega
            omega
        | obj kvs =>
          cases kvs with
          | nil => simp [jnodes, knodes, dumpV]
          | cons kv t =>
            obtain ⟨k, v⟩ := kv
            have hszv : sizeOf v ≤ m := by simp at hsz; omega
            have hszt : sizeOf t ≤ m := by simp at hsz; omega
            have h1 := ihm.1 v (d + 1) hszv
            have h2 := ihm.2.2 t (d + 1) hszt
            have hjn : jnodes (Json.obj ((k, v) :: t)) = jnodes v + knodes t + 1 := by
              simp [jnodes, knodes]
            have hlen : (dumpV d (Json.obj ((k, v) :: t))).length =
                (dumpV (d + 1) v).length + (dumpMembersRest (d + 1) t).length +
                  (escChars k.toList).length + (2 * (d + 1)) + (2 * d) + 8 := by
              simp [dumpV, dumpStr, spacesN]
              omega
            omega
      · intro xs d hsz
        cases xs with
        | nil => simp [inodes, dumpItemsRest]
        | cons y ys =>
          have hszy : sizeOf y ≤ m := by simp at hsz; omega
          have hszys : sizeOf ys ≤ m := by simp at hsz; omega
          have h1 := ihm.1 y d hszy
          have h2 := ihm.2.1 ys d hszys
          have hin : inodes (y :: ys) = jnodes y + inodes ys := inodes_cons y ys
          have hlen : (dumpItemsRest d (y :: ys)).length =
              (dumpV d y).length + (dumpItemsRest d ys).length + (2 * d) + 2 := by
            simp [dumpItemsRest, spacesN]
            omega
          omega
      · intro kvs d hsz
        cases kvs with
        | nil => simp [knodes, dumpMembersRest]
        | cons kv tl =>
          obtain ⟨k, v⟩ := kv
          have hszv : sizeOf v ≤ m := by simp at hsz; omega
          have hsztl : sizeOf tl ≤ m := by simp at hsz; omega
          have h1 := ihm.1 v d hszv
          have h2 := ihm.2.2 tl d hsztl
          have hkn : knodes ((k, v) :: tl) = jnodes v + knodes tl := knodes_cons k v tl
          have hlen : (dumpMembersRest d ((k, v) :: tl)).length =
              (dumpV d v).length + (dumpMembersRest d tl).length +
                (escChars k.toList).length + (2 * d) + 6 := by
            simp [dumpMembersRest, dumpStr, spacesN]
            omega
          omega

/-- Full JSON round trip: loading a dumped value returns the value. -/
theorem json_loads_dumps (j : Json) : json_loads (json_dumps j) = some j := by
  have hfuel : jnodes j ≤ (dumpV 0 j).length + 1 := by
    have := (nodes_le_len (sizeOf j)).1 j 0 (le_refl _)
    omega
  have hrt := (rt_bundle ((dumpV 0 j).length + 1)).1 j 0 [] hfuel trivial
  rw [List.append_nil] at hrt
  have htl : (json_dumps j).toList = dumpV 0 j := rfl
  rw [json_loads, htl, hrt]
  rfl

/-! ## Association-list (Python dict) lemmas -/

theorem alistGet_set_self {α : Type} (d : List (String × α)) (k : String) (v : α) :
    alistGet (alistSet d k v) k = some v := by
  induction d with
  | nil => simp [alistSet, alistGet]
  | cons kv tl ih =>
    obtain ⟨k0, v0⟩ := kv
    by_cases h : k0 = k
    · simp [alistSet, alistGet, h]
    · simp [alistSet, alistGet, h, ih]

theorem alistGet_set {α : Type} (d : List (String × α)) (k k2 : String) (v : α) :
    alistGet (alistSet d k v) k2 =
      if k2 = k then some v else alistGet d k2 := by
  by_cases hk : k2 = k
  · subst hk
    simp [alistGet_set_self]
  · rw [if_neg hk]
    induction d with
    | nil => simp [alistSet, alistGet, Ne.symm hk]
    | cons kv tl ih =>
      obtain ⟨k0, v0⟩ := kv
      by_cases h : k0 = k
      · subst h
        simp [alistSet, alistGet, Ne.symm hk]
      · simp only [alistSet, if_neg h, alistGet]
        by_cases h2 : k0 = k2
        · simp [h2]
        · simp [h2, ih]

theorem alistSet_of_get_none {α : Type} (d : List (String × α)) (k : String)
    (v : α) (h : alistGet d k = none) : alistSet d k v = d ++ [(k, v)] := by
  induction d with
  | nil => rfl
  | cons kv tl ih =>
    obtain ⟨k0, v0⟩ := kv
    simp only [alistGet] at h
    by_cases h0 : k0 = k
    · rw [if_pos h0] at h
      cases h
    · rw [if_neg h0] at h
      simp [alistSet, h0, ih h]

theorem alistSet_keys {α : Type} (d : List (String × α)) (k : String) (v : α) :
    (alistSet d k v).map Prod.fst = d.map Prod.fst ∨
      (alistSet d k v).map Prod.fst = d.map Prod.fst ++ [k] := by
  induction d with
  | nil => right; rfl
  | cons kv tl ih =>
    obtain ⟨k0, v0⟩ := kv
    by_cases h : k0 = k
    · left
      simp [alistSet, h]
    · rcases ih with ih | ih
      · left
        simp [alistSet, h, ih]
      · right
        simp [alistSet, h, ih]

/-! ## Claim theorems -/

set_option maxRecDepth 1000000

/-- C1: `generate_summary_line` classifies each of CPU, memory, and disk as
`"Normal"` exactly when its `usage_percent` is strictly below 80 and `"High"`
when it is at least 80, and joins the four classifications with `" | "` in
the fixed order CPU, Memory, Disk, Network. Determinism is structural: the
function is pure, so identical inputs give identical strings. The boundary
conjuncts evaluate the function at usage 79.99 (= `mkRat 7999 100`) and at
80.00 on concrete snapshots. -/
theorem C1_summary_line_classification (info : SystemInfo) (net : PingResult) :
    generate_summary_line info net =
      String.intercalate " | "
        ["CPU: " ++ (if info.cpu.usage_percent < 80 then "Normal" else "High"),
         "Memory: " ++ (if info.memory.usage_percent < 80 then "Normal" else "High"),
         "Disk: " ++ (if info.disk.usage_percent < 80 then "Normal" else "High"),
         "Network: " ++ networkStatus net] ∧
    (mkRat 7999 100 : ℚ) = 79.99 ∧
    generate_summary_line (mkInfo (mkRat 7999 100)) offlineNet =
      "CPU: Normal | Memory: Normal | Disk: Normal | Network: Offline" ∧
    generate_summary_line (mkInfo 80) offlineNet =
      "CPU: High | Memory: High | Disk: High | Network: Offline" := by
  refine ⟨rfl, ?_, ?_, ?_⟩
  · with_unfolding_all rfl
  · with_unfolding_all rfl
  · with_unfolding_all rfl

/-- C2 counterexample: with `online = true` and `latency_ms` present and
equal to 0, `generate_summary_line` renders the bare `"Online"`, not
`"Online (0ms)"` — Python tests `latency_ms` for truthiness, and `0.0` is
falsy. This refutes the claim that a present latency always yields the
`"Online (<N>ms)"` form. -/
theorem C2_zero_latency_counterexample :
    zeroLatNet.online = true ∧
    zeroLatNet.latency_ms = some 0 ∧
    generate_summary_line (mkInfo 10) zeroLatNet =
      "CPU: Normal | Memory: Normal | Disk: Normal | Network: Online" ∧
    generate_summary_line (mkInfo 10) zeroLatNet ≠
      "CPU: Normal | Memory: Normal | Disk: Normal | Network: Online (0ms)" :=
  of_decide_eq_true (by with_unfolding_all rfl)

/-- C2 amended: the network classification is `"Online (<N>ms)"` when online
with a present and nonzero latency, `"Online"` when online with the latency
absent or equal to 0, and `"Offline"` when not online. -/
theorem C2_network_status_amended (info : SystemInfo) (net : PingResult) :
    generate_summary_line info net =
      String.intercalate " | "
        ["CPU: " ++ (if info.cpu.usage_percent < 80 then "Normal" else "High"),
         "Memory: " ++ (if info.memory.usage_percent < 80 then "Normal" else "High"),
         "Disk: " ++ (if info.disk.usage_percent < 80 then "Normal" else "High"),
         "Network: " ++
           (if net.online = false then "Offline"
            else match net.latency_ms with
                 | none => "Online"
                 | some l =>
                   if l = 0 then "Online"
                   else "Online (" ++ format0f l ++ "ms)")] := by
  cases hn : net.online <;> cases hl : net.latency_ms <;>
    simp [generate_summary_line, networkStatus, hn, hl]

/-- C3 counterexample: on `c3Host` the snapshot has `cached_gb = 1.00` but
`available_gb - free_gb = 1.01 - 0.00 = 1.01`, because the source rounds the
difference of the raw values rather than differencing the rounded fields.
The discrepancy of 0.01 is a full rounding step, not floating error. -/
theorem C3_cached_rounding_counterexample :
    (get_system_info c3Host).memory.cached_gb = 1 ∧
    (get_system_info c3Host).memory.available_gb -
      (get_system_info c3Host).memory.free_gb = 1.01 ∧
    (get_system_info c3Host).memory.cached_gb ≠
      (get_system_info c3Host).memory.available_gb -
        (get_system_info c3Host).memory.free_gb :=
  of_decide_eq_true (by with_unfolding_all rfl)

/-- C3 amended: `cached_gb` equals the 2-decimal rounding of the difference
of the raw (pre-rounding) available and free GiB values — so a negative
difference is preserved, never clamped — and it can differ from
`available_gb - free_gb` over the rounded fields by at most 0.01. -/
theorem C3_cached_gb_amended (h : HostReadings) :
    (get_system_info h).memory.cached_gb =
      round2 ((h.mem_available : ℚ) / 1024 ^ 3 - (h.mem_free : ℚ) / 1024 ^ 3) ∧
    |(get_system_info h).memory.cached_gb -
        ((get_system_info h).memory.available_gb -
          (get_system_info h).memory.free_gb)| ≤ 1 / 100 :=
  ⟨rfl, round2_sub_round2_bound _ _⟩

/-- C4 counterexample: stdout `out0` carries the parsed token `time=0`, so
`latency_ms` is set to 0, yet the message falls back to the
`"Online (Ping <host>: Success)"` form rather than `"... 0ms)"` — Python
tests the parsed value for truthiness. -/
theorem C4_zero_latency_message_counterexample :
    ping_host "google.com" (.completed 0 out0) =
      .ok { online := true, host := "google.com", latency_ms := some 0,
            message := "Online (Ping google.com: Success)" } ∧
    "Online (Ping google.com: Success)" ≠ "Online (Ping google.com: 0ms)" := by
  refine ⟨by with_unfolding_all rfl, by decide⟩

/-- C4 amended: when the ping command exits successfully and a latency token
parses to `l`, the result is online with `latency_ms = l`, and the message is
`"Online (Ping <host>: <N>ms)"` (latency formatted to 0 decimals) whenever
`l ≠ 0`, but the `Success` form when `l = 0`. -/
theorem C4_ping_success_amended (host out : String) (l : ℚ)
    (hp : parseLatency out = some l) :
    ping_host host (.completed 0 out) =
      .ok { online := true, host := host, latency_ms := some l,
            message := if l = 0 then "Online (Ping " ++ host ++ ": Success)"
                       else "Online (Ping " ++ host ++ ": " ++ format0f l ++ "ms)" } := by
  simp only [ping_host, hp]
  rfl

/-- C4 witness: the claim scenario — stdout containing `time=43.2 ms` for
host `google.com` yields latency 43.2 and message
`"Online (Ping google.com: 43ms)"`. -/
theorem C4_ping_success_witness :
    parseLatency out43 = some (43.2 : ℚ) ∧
    ping_host "google.com" (.completed 0 out43) =
      .ok { online := true, host := "google.com", latency_ms := some (43.2 : ℚ),
            message := "Online (Ping google.com: 43ms)" } := by
  have hp : parseLatency out43 = some (43.2 : ℚ) := by with_unfolding_all rfl
  refine ⟨hp, ?_⟩
  rw [C4_ping_success_amended "google.com" out43 (43.2 : ℚ) hp]
  with_unfolding_all rfl

/-- C5: `ping_host` raises (a `RuntimeError`, modelled as `Except.error`) if
and only if the ping executable is missing; nonzero exit, timeout, and other
execution errors all return `online = false` results with `latency_ms`
absent and the specified `Offline (...)` messages. -/
theorem C5_ping_failure_taxonomy (host stdout detail : String) (code : Int)
    (hc : code ≠ 0) :
    ping_host host .fileNotFound =
      .error "ping command not found. Network diagnostics unavailable." ∧
    ping_host host (.completed code stdout) =
      .ok { online := false, host := host, latency_ms := none,
            message := "Offline (Unable to reach " ++ host ++ ")" } ∧
    ping_host host .timeoutExpired =
      .ok { online := false, host := host, latency_ms := none,
            message := "Offline (Timeout connecting to " ++ host ++ ")" } ∧
    ping_host host (.otherError detail) =
      .ok { online := false, host := host, latency_ms := none,
            message := "Offline (Error: " ++ detail ++ ")" } ∧
    (∀ o : PingOutcome, (∃ e, ping_host host o = .error e) ↔ o = .fileNotFound) := by
  refine ⟨rfl, by simp [ping_host, hc], rfl, rfl, ?_⟩
  intro o
  cases o with
  | completed c s =>
    constructor
    · rintro ⟨e, he⟩
      by_cases h0 : c = 0 <;> simp [ping_host, h0] at he
    · intro h
      exact PingOutcome.noConfusion h
  | timeoutExpired =>
    constructor
    · rintro ⟨e, he⟩
      simp [ping_host] at he
    · intro h
      exact PingOutcome.noConfusion h
  | fileNotFound =>
    constructor
    · intro _
      rfl
    · intro _
      exact ⟨_, rfl⟩
  | otherError dd =>
    constructor
    · rintro ⟨e, he⟩
      simp [ping_host] at he
    · intro h
      exact PingOutcome.noConfusion h

/-- C5 witness: concrete instance at host `google.com` with exit code 1. -/
theorem C5_ping_failure_witness :
    ping_host "google.com" (.completed 1 "") =
      .ok { online := false, host := "google.com", latency_ms := none,
            message := "Offline (Unable to reach google.com)" } :=
  (C5_ping_failure_taxonomy "google.com" "" "boom" 1 (by decide)).2.1

/-- C6: `save_text_report` ensures the directory (with its parents), writes
the content verbatim to `<dir>/<prefix>_<YYYY-MM-DD_HH-MM>.txt`, and returns
that path; at clock 2024-03-05 14:07 with the default directory and prefix,
saving `"X"` produces exactly `reports/sysreport_2024-03-05_14-07.txt`
containing `"X"`. -/
theorem C6_save_text_report (content dir pfx : String) (c : Clock)
    (fs : FileSystem) :
    (save_text_report content dir pfx c fs).2 =
      dir ++ "/" ++ (pfx ++ "_" ++ generate_timestamp c ++ ".txt") ∧
    pathParents dir ⊆ (save_text_report content dir pfx c fs).1.dirs ∧
    alistGet (save_text_report content dir pfx c fs).1.files
      (save_text_report content dir pfx c fs).2 = some content ∧
    (save_text_report "X" "reports" "sysreport" ⟨2024, 3, 5, 14, 7, 0, 0⟩ fs).2 =
      "reports/sysreport_2024-03-05_14-07.txt" ∧
    alistGet (save_text_report "X" "reports" "sysreport"
        ⟨2024, 3, 5, 14, 7, 0, 0⟩ fs).1.files
      "reports/sysreport_2024-03-05_14-07.txt" = some "X" := by
  refine ⟨rfl, ?_, ?_, ?_, ?_⟩
  · exact List.subset_append_left _ _
  · exact alistGet_set_self _ _ _
  · with_unfolding_all rfl
  · have hpath : (save_text_report "X" "reports" "sysreport"
        ⟨2024, 3, 5, 14, 7, 0, 0⟩ fs).2 =
        "reports/sysreport_2024-03-05_14-07.txt" := by with_unfolding_all rfl
    rw [← hpath]
    exact alistGet_set_self _ _ _

/-- C7: a JSON report saved by `save_json_report` goes to a `.json` path,
its file content is the `json.dump` serialization (2-space indentation,
non-ASCII kept raw) of the data with the ISO timestamp injected, and
reloading that content with `json.load` reproduces every field of the data
unchanged except for the injected `timestamp` key — in particular `date`,
`system` and `network` are reproduced exactly. -/
theorem C7_json_report_roundtrip (data : List (String × Json))
    (dir pfx : String) (c : Clock) (fs : FileSystem) :
    (save_json_report data dir pfx c fs).2.1 =
      dir ++ "/" ++ (pfx ++ "_" ++ generate_timestamp c ++ ".json") ∧
    alistGet (save_json_report data dir pfx c fs).1.files
        (save_json_report data dir pfx c fs).2.1 =
      some (json_dumps (.obj (alistSet data "timestamp" (.str (isoformat c))))) ∧
    json_loads (json_dumps (.obj (alistSet data "timestamp" (.str (isoformat c))))) =
      some (.obj (alistSet data "timestamp" (.str (isoformat c)))) ∧
    (∀ k2, alistGet (alistSet data "timestamp" (.str (isoformat c))) k2 =
      if k2 = "timestamp" then some (.str (isoformat c)) else alistGet data k2) := by
  refine ⟨rfl, alistGet_set_self _ _ _, json_loads_dumps _, ?_⟩
  intro k2
  exact alistGet_set data "timestamp" k2 _

/-- C8 counterexample: a failure whose error text contains a newline renders
to more than one line, refuting "exactly one line" for every failed result
(the rendered text still begins with `Speedtest Error:`). -/
theorem C8_newline_error_counterexample :
    run_ookla_speedtest (.execError "boom\nbang") =
      .fail "Speedtest failed: boom\nbang" ∧
    (run_ookla_speedtest (.execError "boom\nbang")).failed = true ∧
    format_speedtest_results (run_ookla_speedtest (.execError "boom\nbang")) =
      "Speedtest Error: Speedtest failed: boom\nbang" ∧
    lineCount (format_speedtest_results (run_ookla_speedtest (.execError "boom\nbang"))) = 2 ∧
    lineCount (format_speedtest_results (run_ookla_speedtest (.execError "boom\nbang"))) ≠ 1 :=
  of_decide_eq_true (by with_unfolding_all rfl)

/-- C8 amended: `run_ookla_speedtest` classifies every failure without
raising — missing client dependency, HTTP 403/forbidden (with a message
noting it may be temporary), connection-level failure, and a catch-all
carrying the raw error text after a `Speedtest failed:` prefix — and
`format_speedtest_results` renders any failed result as
`"Speedtest Error: <error>"`, which is exactly one line whenever the error
text contains no newline. -/
theorem C8_speedtest_errors_amended (m1 m2 m3 : String)
    (h1 : strContains m1 "403" = true ∨ strContains m1 "Forbidden" = true)
    (h2 : (strContains m2 "403" || strContains m2 "Forbidden") = false ∧
      (strContains m2 "HTTPSConnectionPool" = true ∨ strContains m2 "Connection" = true))
    (h3 : (strContains m3 "403" || strContains m3 "Forbidden") = false ∧
      (strContains m3 "HTTPSConnectionPool" || strContains m3 "Connection") = false) :
    run_ookla_speedtest .importError =
      .fail "speedtest-cli not installed. Run: pip install speedtest-cli" ∧
    run_ookla_speedtest (.execError m1) =
      .fail "HTTP 403 Forbidden - Ookla servers blocked the request. This may be temporary, please try again later." ∧
    strContains "HTTP 403 Forbidden - Ookla servers blocked the request. This may be temporary, please try again later." "temporary" = true ∧
    run_ookla_speedtest (.execError m2) =
      .fail "Connection error - Unable to reach Ookla servers. Check your internet connection." ∧
    run_ookla_speedtest (.execError m3) = .fail ("Speedtest failed: " ++ m3) ∧
    (∀ e, format_speedtest_results (.fail e) = "Speedtest Error: " ++ e) ∧
    (∀ e, e.toList.count '\n' = 0 →
      lineCount (format_speedtest_results (.fail e)) = 1) := by
  refine ⟨rfl, ?_, by decide, ?_, ?_, fun e => rfl, ?_⟩
  · rw [run_ookla_speedtest]
    rw [if_pos]
    rcases h1 with h | h <;> simp [h]
  · rw [run_ookla_speedtest]
    rw [if_neg (by simp [h2.1]), if_pos]
    rcases h2.2 with h | h <;> simp [h]
  · rw [run_ookla_speedtest]
    rw [if_neg (by simp [h3.1]), if_neg (by simp [h3.2])]
  · intro e he
    have hfmt : format_speedtest_results (.fail e) = "Speedtest Error: " ++ e := rfl
    rw [hfmt, lineCount]
    have hdata : ("Speedtest Error: " ++ e).toList =
        "Speedtest Error: ".toList ++ e.toList := by
      simp [String.toList]
    rw [hdata, List.count_append, he]
    decide

/-- C8 witness: the dependency-missing scenario — with the client library
absent the result is a failure with the dependency message, and formatting it
yields exactly one line beginning `Speedtest Error:`. -/
theorem C8_speedtest_errors_witness :
    run_ookla_speedtest .importError =
      .fail "speedtest-cli not installed. Run: pip install speedtest-cli" ∧
    run_ookla_speedtest (.execError "HTTP Error 403: Forbidden") =
      .fail "HTTP 403 Forbidden - Ookla servers blocked the request. This may be temporary, please try again later." ∧
    run_ookla_speedtest (.execError "HTTPSConnectionPool timed out") =
      .fail "Connection error - Unable to reach Ookla servers. Check your internet connection." ∧
    run_ookla_speedtest (.execError "boom") = .fail ("Speedtest failed: " ++ "boom") ∧
    format_speedtest_results (.fail "boom") = "Speedtest Error: " ++ "boom" ∧
    lineCount (format_speedtest_results
      (.fail "speedtest-cli not installed. Run: pip install speedtest-cli")) = 1 := by
  have h := C8_speedtest_errors_amended "HTTP Error 403: Forbidden"
    "HTTPSConnectionPool timed out" "boom"
    (Or.inl (by decide)) ⟨by decide, Or.inl (by decide)⟩ ⟨by decide, by decide⟩
  exact ⟨h.1, h.2.1, h.2.2.2.1, h.2.2.2.2.1, h.2.2.2.2.2.1 "boom",
    h.2.2.2.2.2.2 _ (by decide)⟩

/-- C9: `save_json_report` mutates its input dictionary: afterwards it holds
the injected ISO-8601 `timestamp` (appended as a new key when absent,
overwritten in place when present), and no other top-level key is added,
removed, or changed. -/
theorem C9_timestamp_mutation (data : List (String × Json)) (dir pfx : String)
    (c : Clock) (fs : FileSystem) :
    (save_json_report data dir pfx c fs).2.2 =
      alistSet data "timestamp" (.str (isoformat c)) ∧
    alistGet (save_json_report data dir pfx c fs).2.2 "timestamp" =
      some (.str (isoformat c)) ∧
    (∀ k2, alistGet (save_json_report data dir pfx c fs).2.2 k2 =
      if k2 = "timestamp" then some (.str (isoformat c)) else alistGet data k2) ∧
    ((save_json_report data dir pfx c fs).2.2.map Prod.fst = data.map Prod.fst ∨
     (save_json_report data dir pfx c fs).2.2.map Prod.fst =
       data.map Prod.fst ++ ["timestamp"]) ∧
    (alistGet data "timestamp" = none →
      (save_json_report data dir pfx c fs).2.2 =
        data ++ [("timestamp", .str (isoformat c))]) := by
  refine ⟨rfl, alistGet_set_self _ _ _, ?_, ?_, ?_⟩
  · intro k2
    exact alistGet_set data "timestamp" k2 _
  · exact alistSet_keys data "timestamp" _
  · intro hnone
    exact alistSet_of_get_none data "timestamp" _ hnone

/-- C9 witness: saving a one-key dictionary appends the timestamp binding. -/
theorem C9_timestamp_mutation_witness :
    (save_json_report [("date", Json.str "2024-03-05")] "reports" "sysreport"
        ⟨2024, 3, 5, 14, 7, 0, 0⟩ ⟨[], []⟩).2.2 =
      [("date", Json.str "2024-03-05")] ++
        [("timestamp", Json.str (isoformat ⟨2024, 3, 5, 14, 7, 0, 0⟩))] :=
  (C9_timestamp_mutation [("date", Json.str "2024-03-05")] "reports" "sysreport"
    ⟨2024, 3, 5, 14, 7, 0, 0⟩ ⟨[], []⟩).2.2.2.2 (by rfl)

/-- C10: whenever `ping_host` returns a result rather than raising, the
result's `host` field equals the host argument, and `latency_ms` is present
only when `online` is true. -/
theorem C10_ping_result_invariants (host : String) (o : PingOutcome)
    (r : PingResult) (h : ping_host host o = .ok r) :
    r.host = host ∧ (r.latency_ms ≠ none → r.online = true) := by
  cases o with
  | completed c s =>
    by_cases h0 : c = 0
    · subst h0
      simp only [ping_host, if_pos rfl] at h
      injection h with h2
      subst h2
      exact ⟨rfl, fun _ => rfl⟩
    · simp only [ping_host, if_neg h0] at h
      injection h with h2
      subst h2
      exact ⟨rfl, fun hcon => absurd rfl hcon⟩
  | timeoutExpired =>
    simp only [ping_host] at h
    injection h with h2
    subst h2
    exact ⟨rfl, fun hcon => absurd rfl hcon⟩
  | fileNotFound =>
    simp only [ping_host] at h
    exact Except.noConfusion h
  | otherError dd =>
    simp only [ping_host] at h
    injection h with h2
    subst h2
    exact ⟨rfl, fun hcon => absurd rfl hcon⟩

/-- C10 witness: the timeout outcome at host `google.com`. -/
theorem C10_ping_result_witness :
    ({ online := false, host := "google.com", latency_ms := none,
       message := "Offline (Timeout connecting to google.com)" } : PingResult).host =
      "google.com" ∧
    (({ online := false, host := "google.com", latency_ms := none,
        message := "Offline (Timeout connecting to google.com)" } : PingResult).latency_ms ≠
       none →
      ({ online := false, host := "google.com", latency_ms := none,
         message := "Offline (Timeout connecting to google.com)" } : PingResult).online = true) :=
  C10_ping_result_invariants "google.com" .timeoutExpired _ rfl
